import Mathlib

/- =====================================================================
Verification development for the xcodebuild output distillation pipeline
(`docs/scripts/xcode-distill.py`) and the TSan output sanitizer
(`docs/scripts/tsan-sanitizer.py`).

Strings are modelled as lists of characters (`Str`).  Python regular
expressions used by the scripts are embedded as explicit matching
functions implementing the backtracking semantics of `re` (leftmost
match, lazy/greedy group semantics) for the concrete patterns involved.
Whitespace classes are modelled over their ASCII range, which covers all
inputs the scripts are specified on.
===================================================================== -/

/-- Strings as character lists. -/
abbrev Str := List Char

/-- Coerce a Lean string literal to the character-list model. -/
def str (s : String) : Str := s.data

/-- Python `\s` / `str.strip` whitespace class (ASCII range). -/
def isWsC (c : Char) : Bool :=
  c = ' ' || c = '\t' || c = '\n' || c = '\r' || c = '\x0b' || c = '\x0c'

/-- Python `\d`. -/
def isDigitC (c : Char) : Bool := c.isDigit

/-- Python str.strip(). -/
def strip (s : Str) : Str :=
  ((s.dropWhile isWsC).reverse.dropWhile isWsC).reverse

/-- Python str.lstrip("+"). -/
def lstripPlus (s : Str) : Str := s.dropWhile (fun c => c = '+')

/-- Python str.lower() (ASCII range). -/
def toLowerS (s : Str) : Str := s.map Char.toLower

/-- Python int(...) on a digit string. -/
def natOfDigits (ds : Str) : Nat := ds.foldl (fun n c => n * 10 + (c.toNat - 48)) 0

/-- Rendering of a non-negative integer (f-string interpolation). -/
def natStr (n : Nat) : Str := (Nat.repr n).data

/-- Rendering of an integer. -/
def intStr (n : Int) : Str := (Int.repr n).data

/-- Split a character list at every occurrence of c (Python str.split).
Always returns a non-empty list of parts. -/
def splitOnChar (c : Char) : Str → List Str
  | [] => [[]]
  | a :: as =>
    match splitOnChar c as with
    | [] => [[]]
    | h :: t => if a = c then [] :: h :: t else (a :: h) :: t

/-- Join parts with separator c (inverse of splitOnChar). -/
def joinWith (c : Char) : List Str → Str
  | [] => []
  | [s] => s
  | s :: ss => s ++ c :: joinWith c ss

/-- Python str.splitlines() for newline-separated text: like splitting on
newline but without a trailing empty line when the text ends in a newline. -/
def splitlines (s : Str) : List Str :=
  if s.isEmpty then []
  else
    let parts := splitOnChar '\n' s
    if s.getLast? = some '\n' then parts.dropLast else parts

/-- Substring prefix test. -/
def isPrefix (p s : Str) : Bool := decide (p <+: s)

/-- Substring suffix test (Python `str.endswith`). -/
def isSuffix (p s : Str) : Bool := decide (p <:+ s)

/-- Python substring containment (pat in s). -/
def containsSub (pat : Str) : Str → Bool
  | [] => pat.isEmpty
  | c :: rest => isPrefix pat (c :: rest) || containsSub pat rest

/-- Split at the first occurrence of pat, returning the text before and
after it (None when pat does not occur). -/
def splitFirst (pat : Str) : Str → Option (Str × Str)
  | [] => if pat.isEmpty then some ([], []) else none
  | c :: rest =>
    if isPrefix pat (c :: rest) then some ([], (c :: rest).drop pat.length)
    else (splitFirst pat rest).map (fun p => (c :: p.1, p.2))

/-- Leftmost occurrence of the literal lit that is followed by at least one
digit; returns the maximal digit run (regex `lit(\d+)` search semantics). -/
def searchLitDigits (lit : Str) : Str → Option Str
  | [] => none
  | c :: rest =>
    if isPrefix lit (c :: rest) then
      let ds := ((c :: rest).drop lit.length).takeWhile isDigitC
      if ds.isEmpty then searchLitDigits lit rest else some ds
    else searchLitDigits lit rest

/-- Stable insertion: x is placed before the first element `y` with
`le x y`; used to model Python's stable `sorted`. -/
def stableInsert (le : α → α → Bool) (x : α) : List α → List α
  | [] => [x]
  | y :: ys => if le x y then x :: y :: ys else y :: stableInsert le x ys

/-- Stable sort by insertion (models Python's stable `sorted`). -/
def stableSort (le : α → α → Bool) : List α → List α
  | [] => []
  | x :: xs => stableInsert le x (stableSort le xs)

/- =====================================================================
Shared utilities of xcode-distill.py
===================================================================== -/

/-- The recognized source-directory names of relativize_path. -/
def srcDirNames : List Str :=
  [str "Sources", str "Source", str "src", str "App", str "Modules", str "Packages"]

/-- Model of pathlib Path(p).name: the final path component (empty for root-like
paths; single-dot components are dropped by path normalization). -/
def pathName (p : Str) : Str :=
  ((splitOnChar '/' p).filter (fun seg => !seg.isEmpty && seg ≠ str ".")).getLastD []

/-- Modelled Path(p).relative_to(root): succeeds when `root`'s segments are
a prefix of `p`'s segments and both agree on absoluteness (simplified from
pathlib; the claims never exercise this branch). -/
def relativeTo (p root : Str) : Option Str :=
  let pp := (splitOnChar '/' p).filter (fun seg => !seg.isEmpty)
  let rp := (splitOnChar '/' root).filter (fun seg => !seg.isEmpty)
  if (p.head? = some '/') = (root.head? = some '/') && decide (rp <+: pp) then
    some (joinWith '/' (pp.drop rp.length))
  else none

/-- The left-to-right scan of relativize_path over path segments: stop at
the first segment ending in a project-container marker (return everything
after it) or equal to a known source directory (return from it on). -/
def relativizeScan : List Str → Option Str
  | [] => none
  | part :: rest =>
    if isSuffix (str ".xcworkspace") part || isSuffix (str ".xcodeproj") part then
      some (joinWith '/' rest)
    else if part ∈ srcDirNames then some (joinWith '/' (part :: rest))
    else relativizeScan rest

/-- The heuristic fallback chain of relativize_path (marker scan, then
source-directory scan, then basename). -/
def relativizeHeuristic (p : Str) : Str :=
  let parts := splitOnChar '/' (p.map fun c => if c = '\\' then '/' else c)
  match relativizeScan parts with
  | some r => r
  | none => pathName p

/-- Function relativize_path from xcode-distill.py: strip an absolute prefix,
returning a project-relative path. -/
def relativize_path (abs_path : Str) (source_root : Option Str) : Str :=
  if abs_path.isEmpty then abs_path
  else
    match source_root with
    | some root =>
      match relativeTo abs_path root with
      | some r => r
      | none => relativizeHeuristic abs_path
    | none => relativizeHeuristic abs_path

/- =====================================================================
Compile subcommand: diagnostic extraction (parse_compile_output)
===================================================================== -/

/-- Diagnostic severity. -/
inductive Sev where
  | error
  | warning
  | note
deriving DecidableEq

/-- Severity rendered as in the JSON payload. -/
def Sev.asStr : Sev → Str
  | .error => str "error"
  | .warning => str "warning"
  | .note => str "note"

/-- The CompilerDiagnostic dataclass from xcode-distill.py. -/
structure CompilerDiagnostic where
  file_path : Str
  line : Nat
  column : Nat
  severity : Sev
  message : Str
deriving DecidableEq

/-- The severity alternation (error|warning|note) of DIAGNOSTIC_RE. -/
def sevHead (s : Str) : Option (Sev × Str) :=
  if isPrefix (str "error") s then some (.error, s.drop 5)
  else if isPrefix (str "warning") s then some (.warning, s.drop 7)
  else if isPrefix (str "note") s then some (.note, s.drop 4)
  else none

/-- The tail of DIAGNOSTIC_RE after the chosen file prefix and its colon:
`(\d+):(\d+):\s+(error|warning|note):\s+(.+)$` with greedy `\d+`/`\s+` and a
one-step backtrack of the final `\s+` when the message would be empty. -/
def diagTail (s : Str) : Option (Nat × Nat × Sev × Str) :=
  let d1 := s.takeWhile isDigitC
  if d1.isEmpty then none
  else
    match s.drop d1.length with
    | ':' :: r1 =>
      let d2 := r1.takeWhile isDigitC
      if d2.isEmpty then none
      else
        match r1.drop d2.length with
        | ':' :: r2 =>
          let w := r2.takeWhile isWsC
          if w.isEmpty then none
          else
            match sevHead (r2.drop w.length) with
            | some (sev, ':' :: r5) =>
              let w2 := r5.takeWhile isWsC
              if w2.isEmpty then none
              else
                let msg := r5.drop w2.length
                if msg.isEmpty then
                  if w2.length ≥ 2 then
                    some (natOfDigits d1, natOfDigits d2, sev, w2.drop (w2.length - 1))
                  else none
                else some (natOfDigits d1, natOfDigits d2, sev, msg)
            | _ => none
        | _ => none
    | _ => none

/-- Lazy choice of the file group of DIAGNOSTIC_RE: the shortest non-empty file
prefix ending at a `:` whose remainder matches the rest of the pattern
(`acc` holds the reversed file prefix tried so far). -/
def diagSplit (acc : Str) : Str → Option (Str × Nat × Nat × Sev × Str)
  | [] => none
  | c :: rest =>
    if c = ':' && !acc.isEmpty then
      match diagTail rest with
      | some r => some (acc.reverse, r)
      | none => diagSplit (c :: acc) rest
    else diagSplit (c :: acc) rest

/-- Full-line match of DIAGNOSTIC_RE. -/
def diagMatch (line : Str) : Option (Str × Nat × Nat × Sev × Str) :=
  diagSplit [] line

/-- The dedup key string file:line:message of parse_compile_output. -/
def dedupKey (fp : Str) (ln : Nat) (msg : Str) : Str :=
  fp ++ str ":" ++ natStr ln ++ str ":" ++ msg

/-- The dedup key of a diagnostic record. -/
def keyOf (d : CompilerDiagnostic) : Str := dedupKey d.file_path d.line d.message

/-- One line of parse_compile_output: strip, match DIAGNOSTIC_RE,
relativize the path and strip the message. -/
def lineDiag (source_root : Option Str) (l : Str) : Option CompilerDiagnostic :=
  (diagMatch (strip l)).map fun r =>
    { file_path := relativize_path r.1 source_root
      line := r.2.1
      column := r.2.2.1
      severity := r.2.2.2.1
      message := strip r.2.2.2.2 }

/-- The dedup loop of parse_compile_output (seen is the set of keys
already emitted). -/
def parseGo (source_root : Option Str) (seen : List Str) : List Str → List CompilerDiagnostic
  | [] => []
  | l :: ls =>
    match lineDiag source_root l with
    | none => parseGo source_root seen ls
    | some d =>
      if keyOf d ∈ seen then parseGo source_root seen ls
      else d :: parseGo source_root (keyOf d :: seen) ls

/-- Function parse_compile_output from xcode-distill.py. -/
def parse_compile_output (raw : Str) (source_root : Option Str) : List CompilerDiagnostic :=
  parseGo source_root [] (splitlines raw)

/-- All diagnostic lines matched in the input, in input order, before
deduplication (specification-side view of the same extraction). -/
def rawDiags (raw : Str) (source_root : Option Str) : List CompilerDiagnostic :=
  (splitlines raw).filterMap (lineDiag source_root)

/-- First-occurrence-wins deduplication by key, starting from already-seen
keys `seen`. -/
def keepFirst (seen : List Str) : List CompilerDiagnostic → List CompilerDiagnostic
  | [] => []
  | d :: ds =>
    if keyOf d ∈ seen then keepFirst seen ds
    else d :: keepFirst (keyOf d :: seen) ds

/- =====================================================================
Basic lemmas about the string utilities
===================================================================== -/

theorem splitOnChar_ne_nil (c : Char) (s : Str) : splitOnChar c s ≠ [] := by
  cases s with
  | nil => simp [splitOnChar]
  | cons a as =>
    cases h : splitOnChar c as with
    | nil => simp [splitOnChar, h]
    | cons h1 t => by_cases hac : a = c <;> simp [splitOnChar, h, hac]

theorem joinWith_cons₂ (c : Char) (a : Char) (h : Str) (t : List Str) :
    joinWith c ((a :: h) :: t) = a :: joinWith c (h :: t) := by
  cases t <;> rfl

theorem joinWith_splitOnChar (c : Char) (s : Str) :
    joinWith c (splitOnChar c s) = s := by
  induction s with
  | nil => rfl
  | cons a as ih =>
    cases h : splitOnChar c as with
    | nil => exact absurd h (splitOnChar_ne_nil c as)
    | cons h1 t =>
      rw [h] at ih
      have hstep : splitOnChar c (a :: as) =
          if a = c then [] :: h1 :: t else (a :: h1) :: t := by
        simp [splitOnChar, h]
      rw [hstep]
      by_cases hac : a = c
      · rw [if_pos hac, hac]
        simpa [joinWith] using ih
      · rw [if_neg hac, joinWith_cons₂, ih]

/- =====================================================================
Lemmas about deduplication in parse_compile_output (claim C1)
===================================================================== -/

theorem parseGo_eq_keepFirst (root : Option Str) (seen : List Str) (ls : List Str) :
    parseGo root seen ls = keepFirst seen (ls.filterMap (lineDiag root)) := by
  induction ls generalizing seen with
  | nil => rfl
  | cons l ls ih =>
    cases h : lineDiag root l <;>
      simp [parseGo, List.filterMap_cons, h, keepFirst, ih]

theorem keepFirst_sublist (seen : List Str) (ds : List CompilerDiagnostic) :
    (keepFirst seen ds).Sublist ds := by
  induction ds generalizing seen with
  | nil => simp [keepFirst]
  | cons d ds ih =>
    simp only [keepFirst]
    split
    · exact (ih seen).cons d
    · exact (ih _).cons₂ d

theorem keepFirst_fresh_nodup (seen : List Str) (ds : List CompilerDiagnostic) :
    (∀ d ∈ keepFirst seen ds, keyOf d ∉ seen) ∧
      ((keepFirst seen ds).map keyOf).Nodup := by
  induction ds generalizing seen with
  | nil => simp [keepFirst]
  | cons d ds ih =>
    simp only [keepFirst]
    split
    · exact ih seen
    · rename_i hni
      obtain ⟨h1, h2⟩ := ih (keyOf d :: seen)
      refine ⟨?_, ?_⟩
      · intro x hx
        rcases List.mem_cons.mp hx with h | h
        · subst h; exact hni
        · exact fun hc => h1 x h (List.mem_cons_of_mem _ hc)
      · refine List.nodup_cons.mpr ⟨?_, h2⟩
        intro hc
        obtain ⟨x, hx, hk⟩ := List.mem_map.mp hc
        exact h1 x hx (by rw [hk]; exact List.mem_cons_self _ _)

theorem keepFirst_first_wins (seen : List Str) (ds : List CompilerDiagnostic) :
    ∀ d ∈ ds, keyOf d ∉ seen →
      ∃ d', d' ∈ keepFirst seen ds ∧ keyOf d' = keyOf d ∧
        ds.find? (fun x => decide (keyOf x = keyOf d)) = some d' := by
  induction ds generalizing seen with
  | nil => intro d hd; simp at hd
  | cons d0 ds ih =>
    intro d hd hfresh
    by_cases hk : keyOf d0 = keyOf d
    · refine ⟨d0, ?_, hk, ?_⟩
      · simp only [keepFirst]
        rw [if_neg (by rw [hk]; exact hfresh)]
        exact List.mem_cons_self _ _
      · simp [List.find?_cons, hk]
    · have hd' : d ∈ ds := by
        rcases List.mem_cons.mp hd with h | h
        · exact absurd (by rw [h]) hk
        · exact h
      simp only [keepFirst]
      by_cases hseen : keyOf d0 ∈ seen
      · rw [if_pos hseen]
        obtain ⟨d', hmem, hkey, hfind⟩ := ih seen d hd' hfresh
        exact ⟨d', hmem, hkey, by simp [List.find?_cons, hk, hfind]⟩
      · rw [if_neg hseen]
        have hfresh' : keyOf d ∉ keyOf d0 :: seen := by
          intro hc
          rcases List.mem_cons.mp hc with h | h
          · exact hk h.symm
          · exact hfresh h
        obtain ⟨d', hmem, hkey, hfind⟩ := ih (keyOf d0 :: seen) d hd' hfresh'
        exact ⟨d', List.mem_cons_of_mem _ hmem, hkey, by simp [List.find?_cons, hk, hfind]⟩

/-- C1 (amended).  The extractor deduplicates by the concatenated key string
file + ":" + line + ":" + message (not by the triple itself): it returns
exactly one diagnostic per key string, the first occurrence in input order
wins, and order of first appearance is preserved.  Two matched lines with
distinct (file, line, message) triples are both retained only when their key
strings differ (distinct triples can collide, see the counterexample). -/
theorem parse_compile_output_dedup (raw : Str) (root : Option Str) :
    ((parse_compile_output raw root).map keyOf).Nodup ∧
    (parse_compile_output raw root).Sublist (rawDiags raw root) ∧
    ∀ d ∈ rawDiags raw root, ∃ d', d' ∈ parse_compile_output raw root ∧
      keyOf d' = keyOf d ∧
      (rawDiags raw root).find? (fun x => decide (keyOf x = keyOf d)) = some d' := by
  have he : parse_compile_output raw root = keepFirst [] (rawDiags raw root) :=
    parseGo_eq_keepFirst root [] (splitlines raw)
  refine ⟨?_, ?_, ?_⟩
  · rw [he]; exact (keepFirst_fresh_nodup [] (rawDiags raw root)).2
  · rw [he]; exact keepFirst_sublist [] (rawDiags raw root)
  · intro d hd
    rw [he]
    exact keepFirst_first_wins [] (rawDiags raw root) d hd (by simp)

/-- The second matched diagnostic of the concrete C1 witness input. -/
def c1DupDiag : CompilerDiagnostic :=
  { file_path := str "A.swift", line := 1, column := 2,
    severity := Sev.error, message := str "m" }

/-- Witness for C1: on a concrete input with a duplicated (file, line,
message) diagnostic, the first occurrence is the unique representative. -/
theorem parse_compile_output_dedup_witness :
    ∃ d', d' ∈ parse_compile_output
        (str "A.swift:1:1: error: m\nA.swift:1:2: error: m") none ∧
      keyOf d' = keyOf c1DupDiag ∧
      (rawDiags (str "A.swift:1:1: error: m\nA.swift:1:2: error: m") none).find?
          (fun x => decide (keyOf x = keyOf c1DupDiag)) = some d' :=
  (parse_compile_output_dedup
      (str "A.swift:1:1: error: m\nA.swift:1:2: error: m") none).2.2
    c1DupDiag (by decide)

/-- Counterexample for C1: two matched lines with distinct (file, line,
message) triples collide on the concatenated dedup key, so only the first is
retained, contradicting the claim that both are. -/
theorem parse_compile_output_collision :
    (rawDiags (str "X.swift:1:2:1: error: m\nX.swift:1:5: error: 2:m") none).map
        (fun d => (d.file_path, d.line, d.message)) =
      [(str "X.swift:1", 2, str "m"), (str "X.swift", 1, str "2:m")] ∧
    ((str "X.swift:1", 2, str "m") : Str × Nat × Str) ≠ (str "X.swift", 1, str "2:m") ∧
    (parse_compile_output (str "X.swift:1:2:1: error: m\nX.swift:1:5: error: 2:m")
        none).length = 1 := by
  refine ⟨by decide, by decide, by decide⟩

/- =====================================================================
Claim C3: relativize_path idempotence
===================================================================== -/

/-- C3 (amended).  The relativizer is idempotent on already-relative paths
whose first segment is a recognized source directory (any such path is
returned unchanged, hence reapplication is a no-op), and relativizing
/Users/x/Project.xcworkspace/Sources/A/B.swift with no explicit root yields
Sources/A/B.swift.  It is not idempotent on arbitrary already-relative
paths or on all of its own outputs (see the counterexample). -/
theorem relativize_path_src_fixed (p first : Str) (rest : List Str)
    (hb : ∀ ch ∈ p, ch ≠ '\\')
    (hsplit : splitOnChar '/' p = first :: rest)
    (hsrc : first ∈ srcDirNames) :
    relativize_path p none = p ∧
    relativize_path (str "/Users/x/Project.xcworkspace/Sources/A/B.swift") none =
      str "Sources/A/B.swift" := by
  refine ⟨?_, by decide⟩
  have hfirst_ne : first ≠ [] := by
    simp only [srcDirNames, List.mem_cons] at hsrc
    rcases hsrc with h | h | h | h | h | h | h <;> first | (subst h; decide) | simp at h
  have hp_ne : p ≠ [] := by
    intro h
    subst h
    simp [splitOnChar] at hsplit
    exact hfirst_ne hsplit.1
  have hmap : (p.map fun c => if c = '\\' then '/' else c) = p := by
    conv_rhs => rw [← List.map_id p]
    exact List.map_congr_left (fun a ha => by simp [hb a ha])
  have hjoin : joinWith '/' (first :: rest) = p := by
    rw [← hsplit]; exact joinWith_splitOnChar '/' p
  have hscan : relativizeScan (first :: rest) = some (joinWith '/' (first :: rest)) := by
    simp only [srcDirNames, List.mem_cons] at hsrc
    rcases hsrc with h | h | h | h | h | h | h <;>
      first
        | (subst h
           rw [relativizeScan]
           rw [if_neg (by decide), if_pos (by decide)])
        | simp at h
  simp only [relativize_path, List.isEmpty_iff, if_neg hp_ne, relativizeHeuristic,
    hmap, hsplit, hscan, hjoin]

/-- Witness for C3: a concrete source-directory-headed path is a fixed point
of the relativizer. -/
theorem relativize_path_src_fixed_witness :
    relativize_path (str "Sources/A/B.swift") none = str "Sources/A/B.swift" ∧
    relativize_path (str "/Users/x/Project.xcworkspace/Sources/A/B.swift") none =
      str "Sources/A/B.swift" :=
  relativize_path_src_fixed (str "Sources/A/B.swift") (str "Sources")
    [str "A", str "B.swift"] (by decide) (by decide) (by decide)

/-- Counterexample for C3: Foo/Bar.swift is already relative (and is itself
an output of the relativizer, from /a/P.xcodeproj/Foo/Bar.swift) yet
relativizing it again shrinks it to its basename, so the relativizer is not
idempotent. -/
theorem relativize_path_not_idempotent :
    relativize_path (str "/a/P.xcodeproj/Foo/Bar.swift") none = str "Foo/Bar.swift" ∧
    relativize_path (str "Foo/Bar.swift") none = str "Bar.swift" ∧
    str "Bar.swift" ≠ str "Foo/Bar.swift" := by
  refine ⟨by decide, by decide, by decide⟩

/- =====================================================================
Report renderer and circuit breaker (format_circuit_breaker,
format_compile_markdown, format_compile_json)
===================================================================== -/

/-- The fixed part of the circuit-breaker template before the interpolated
attempt number. -/
def cbPrefix : Str := str "\n## ⛔ CIRCUIT BREAKER — Attempt "

/-- The fixed part of the circuit-breaker template between the interpolated
attempt number and the numbered steps. -/
def cbMid : Str :=
  str " (max 3)\n\n**You have exceeded the maximum remediation attempts for this file.**\n\n### Required Actions:\n"

/-- The five numbered escalation steps of the circuit-breaker template,
verbatim. -/
def cbSteps : Str :=
  str "1. `git stash` or `git checkout -- <files>` to revert your changes\n2. Open a **Draft PR** with the partially-fixed code\n3. Tag the PR with `#requires-human-architect`\n4. Include this distilled error report in the PR description\n5. **STOP** — do not attempt further automated fixes\n"

/-- The circuit-breaker block for a given attempt number (the template with
the attempt number interpolated), irrespective of the threshold test. -/
def cbBlock (attempt : Nat) : Str := cbPrefix ++ natStr attempt ++ cbMid ++ cbSteps

/-- Function format_circuit_breaker from xcode-distill.py. -/
def format_circuit_breaker (attempt : Nat) : Str :=
  if attempt < 3 then [] else cbBlock attempt

/-- An error item line of the compile Markdown report. -/
def errItemLine (d : CompilerDiagnostic) : Str :=
  str "- **L" ++ natStr d.line ++ str "**: `" ++ d.message ++ str "`"

/-- A per-file header line of the compile Markdown report. -/
def errFileHeader (fp : Str) (n : Nat) : Str :=
  str "#### " ++ pathName fp ++ str " (" ++ natStr n ++ str " errors)"

/-- The truncation note of the compile Markdown report. -/
def errTruncNote (remaining : Nat) : Str :=
  str "\n_(" ++ natStr remaining ++ str " more errors not shown — use `--max-issues` to increase)_\n"

/-- Insert x into the group for key k, appending to an existing group or
creating a new one at the end (defaultdict insertion-order semantics). -/
def upsertGroup (k : Str) (x : α) : List (Str × List α) → List (Str × List α)
  | [] => [(k, [x])]
  | (k', g) :: rest =>
    if k' = k then (k', g ++ [x]) :: rest else (k', g) :: upsertGroup k x rest

/-- Group a list by a key function, preserving first-occurrence key order and
within-group element order (Python defaultdict + dict iteration order). -/
def groupByKey (key : α → Str) (xs : List α) : List (Str × List α) :=
  xs.foldl (fun acc x => upsertGroup (key x) x acc) []

/-- Parameters of the shared capped group-rendering loop used by the compile
and test Markdown reports. -/
structure GroupRenderCfg (α : Type) where
  mkHeader : Str → List α → Str
  mkItems : List α → List α
  mkItem : α → List Str
  mkNote : Nat → Str

/-- The inner item loop: emit each item's lines, incrementing the shown
counter, breaking once it reaches the cap. -/
def renderItemsCapped (cfg : GroupRenderCfg α) (maxI : Nat) :
    List α → Nat → (List Str × Nat)
  | [], shown => ([], shown)
  | x :: xs, shown =>
    let ls := cfg.mkItem x
    let shown' := shown + 1
    if maxI ≤ shown' then (ls, shown')
    else
      let r := renderItemsCapped cfg maxI xs shown'
      (ls ++ r.1, r.2)

/-- The outer group loop: before each group, if the cap has been reached,
emit the remaining-count note and stop; otherwise emit the group header, its
items (capped), and a blank separator line.  Also returns the final shown
counter and whether the note was emitted. -/
def renderGroupsCapped (cfg : GroupRenderCfg α) (maxI total : Nat) :
    List (Str × List α) → Nat → (List Str × Nat × Bool)
  | [], shown => ([], shown, false)
  | (k, g) :: gs, shown =>
    if maxI ≤ shown then ([cfg.mkNote (total - shown)], shown, true)
    else
      let items := renderItemsCapped cfg maxI (cfg.mkItems g) shown
      let rest := renderGroupsCapped cfg maxI total gs items.2
      (cfg.mkHeader k g :: (items.1 ++ ([] : Str) :: rest.1), rest.2.1, rest.2.2)

/-- The group-rendering parameters of the compile Markdown report: groups are
keyed by file, items are the file's errors sorted (stably) by line, one line
per item. -/
def compileCfg : GroupRenderCfg CompilerDiagnostic where
  mkHeader := fun fp g => errFileHeader fp g.length
  mkItems := stableSort (fun a b => decide (a.line ≤ b.line))
  mkItem := fun d => [errItemLine d]
  mkNote := errTruncNote

/-- The optional scheme label of the compile report header. -/
def schemeLabel : Option Str → Str
  | some s => str " (scheme: " ++ s ++ str ")"
  | none => []

/-- The header line of the compile Markdown report. -/
def compileHeader (ne nw : Nat) (scheme : Option Str) : Str :=
  str "## Build Result: " ++ natStr ne ++ str " errors, " ++ natStr nw ++
    str " warnings" ++ schemeLabel scheme ++ str "\n"

/-- A condensed warning line of the compile Markdown report. -/
def warnLine (d : CompilerDiagnostic) : Str :=
  str "- `" ++ d.file_path ++ str ":" ++ natStr d.line ++ str "` — " ++ d.message

/-- The clean-build success line of the compile Markdown report. -/
def cleanBuildLine : Str := str "✅ **Clean build** — no errors or warnings.\n"

/-- The errors-by-file section of the compile Markdown report (section header
plus the capped group rendering of the errors grouped by file, ordered by
descending group size, stably). -/
def compileErrPart (errors : List CompilerDiagnostic) (max_issues : Nat) : List Str :=
  if errors.isEmpty then []
  else
    str "### Errors by File\n" ::
      (renderGroupsCapped compileCfg max_issues errors.length
        (stableSort (fun a b => decide (b.2.length ≤ a.2.length))
          (groupByKey (fun d => d.file_path) errors)) 0).1

/-- The condensed warnings section of the compile Markdown report (at most 5
warnings plus a remaining-count note). -/
def compileWarnPart (warnings : List CompilerDiagnostic) : List Str :=
  if warnings.isEmpty then []
  else
    ((str "### Top " ++ natStr (min 5 warnings.length) ++ str " Warnings\n") ::
      (warnings.take (min 5 warnings.length)).map warnLine ++
      (if min 5 warnings.length < warnings.length then
        [str "- _(" ++ natStr (warnings.length - min 5 warnings.length) ++
          str " more warnings)_"]
      else [])) ++ [([] : Str)]

/-- Function format_compile_markdown from xcode-distill.py, as the list of
lines that are joined with newlines into the final string. -/
def format_compile_markdown_lines (diagnostics : List CompilerDiagnostic)
    (max_issues : Nat) (scheme : Option Str) (attempt : Nat) : List Str :=
  let errors := diagnostics.filter (fun d => decide (d.severity = Sev.error))
  let warnings := diagnostics.filter (fun d => decide (d.severity = Sev.warning))
  let header := compileHeader errors.length warnings.length scheme
  if errors.isEmpty && warnings.isEmpty then
    [header, cleanBuildLine]
  else
    header ::
      (compileErrPart errors max_issues ++ compileWarnPart warnings ++
        (if (format_circuit_breaker attempt).isEmpty then []
         else [format_circuit_breaker attempt]))

/-- Function format_compile_markdown from xcode-distill.py (joined string). -/
def format_compile_markdown (diagnostics : List CompilerDiagnostic)
    (max_issues : Nat) (scheme : Option Str) (attempt : Nat) : Str :=
  joinWith '\n' (format_compile_markdown_lines diagnostics max_issues scheme attempt)

/-- One diagnostic entry of the compile JSON payload. -/
structure DiagnosticJson where
  file : Str
  line : Nat
  severity : Str
  message : Str
deriving DecidableEq

/-- The compile JSON payload. -/
structure CompileJsonPayload where
  errors : Nat
  warnings : Nat
  attempt : Nat
  circuit_breaker : Bool
  diagnostics : List DiagnosticJson
deriving DecidableEq

/-- Serialization of one diagnostic into the JSON payload. -/
def diagJson (d : CompilerDiagnostic) : DiagnosticJson :=
  { file := d.file_path, line := d.line, severity := d.severity.asStr,
    message := d.message }

/-- Function format_compile_json from xcode-distill.py (the structured
payload it serializes). -/
def format_compile_json (diagnostics : List CompilerDiagnostic) (attempt : Nat) :
    CompileJsonPayload :=
  { errors := (diagnostics.filter (fun d => decide (d.severity = Sev.error))).length
    warnings := (diagnostics.filter (fun d => decide (d.severity = Sev.warning))).length
    attempt := attempt
    circuit_breaker := decide (3 ≤ attempt)
    diagnostics := diagnostics.map diagJson }

/- =====================================================================
Lemmas about the capped rendering loops
===================================================================== -/

theorem renderItemsCapped_cons (cfg : GroupRenderCfg α) (maxI : Nat)
    (x : α) (xs : List α) (shown : Nat) :
    renderItemsCapped cfg maxI (x :: xs) shown =
      if maxI ≤ shown + 1 then (cfg.mkItem x, shown + 1)
      else (cfg.mkItem x ++ (renderItemsCapped cfg maxI xs (shown + 1)).1,
            (renderItemsCapped cfg maxI xs (shown + 1)).2) := by
  simp only [renderItemsCapped]

theorem renderGroupsCapped_cons (cfg : GroupRenderCfg α) (maxI total : Nat)
    (k : Str) (g : List α) (gs : List (Str × List α)) (shown : Nat) :
    renderGroupsCapped cfg maxI total ((k, g) :: gs) shown =
      if maxI ≤ shown then ([cfg.mkNote (total - shown)], shown, true)
      else
        (cfg.mkHeader k g ::
            ((renderItemsCapped cfg maxI (cfg.mkItems g) shown).1 ++
              ([] : Str) ::
                (renderGroupsCapped cfg maxI total gs
                  (renderItemsCapped cfg maxI (cfg.mkItems g) shown).2).1),
          (renderGroupsCapped cfg maxI total gs
            (renderItemsCapped cfg maxI (cfg.mkItems g) shown).2).2.1,
          (renderGroupsCapped cfg maxI total gs
            (renderItemsCapped cfg maxI (cfg.mkItems g) shown).2).2.2) := by
  simp only [renderGroupsCapped]

theorem renderItemsCapped_forall (cfg : GroupRenderCfg α) (maxI : Nat) (P : Str → Prop)
    (hItem : ∀ x, ∀ l ∈ cfg.mkItem x, P l) :
    ∀ (xs : List α) (shown : Nat), ∀ l ∈ (renderItemsCapped cfg maxI xs shown).1, P l := by
  intro xs
  induction xs with
  | nil => intro shown l hl; simp [renderItemsCapped] at hl
  | cons x xs ih =>
    intro shown l hl
    rw [renderItemsCapped_cons] at hl
    by_cases hb : maxI ≤ shown + 1
    · rw [if_pos hb] at hl
      exact hItem x l hl
    · rw [if_neg hb] at hl
      rcases List.mem_append.mp hl with h | h
      · exact hItem x l h
      · exact ih (shown + 1) l h

theorem renderGroupsCapped_forall (cfg : GroupRenderCfg α) (maxI total : Nat)
    (P : Str → Prop)
    (hHeader : ∀ k g, P (cfg.mkHeader k g))
    (hItem : ∀ x, ∀ l ∈ cfg.mkItem x, P l)
    (hNote : ∀ n, P (cfg.mkNote n))
    (hBlank : P []) :
    ∀ (gs : List (Str × List α)) (shown : Nat),
      ∀ l ∈ (renderGroupsCapped cfg maxI total gs shown).1, P l := by
  intro gs
  induction gs with
  | nil => intro shown l hl; simp [renderGroupsCapped] at hl
  | cons kg gs ih =>
    intro shown l hl
    obtain ⟨k, g⟩ := kg
    rw [renderGroupsCapped_cons] at hl
    by_cases hb : maxI ≤ shown
    · rw [if_pos hb] at hl
      simp only [List.mem_singleton] at hl
      subst hl; exact hNote _
    · rw [if_neg hb] at hl
      rcases List.mem_cons.mp hl with h | h
      · subst h; exact hHeader k g
      · rcases List.mem_append.mp h with h2 | h2
        · exact renderItemsCapped_forall cfg maxI P hItem _ _ l h2
        · rcases List.mem_cons.mp h2 with h3 | h3
          · subst h3; exact hBlank
          · exact ih _ l h3

theorem renderItemsCapped_count (cfg : GroupRenderCfg α) (maxI : Nat) (p : Str → Bool)
    (hItem : ∀ x, (cfg.mkItem x).countP p = 1) :
    ∀ (xs : List α) (shown : Nat), shown < maxI →
      ((renderItemsCapped cfg maxI xs shown).1.countP p) + shown =
          (renderItemsCapped cfg maxI xs shown).2 ∧
        shown ≤ (renderItemsCapped cfg maxI xs shown).2 ∧
        (renderItemsCapped cfg maxI xs shown).2 ≤ maxI ∧
        (renderItemsCapped cfg maxI xs shown).2 = min maxI (shown + xs.length) := by
  intro xs
  induction xs with
  | nil =>
    intro shown h
    simp only [renderItemsCapped, List.countP_nil, List.length_nil]
    omega
  | cons x xs ih =>
    intro shown h
    rw [renderItemsCapped_cons]
    by_cases hb : maxI ≤ shown + 1
    · rw [if_pos hb]
      simp only [hItem x, List.length_cons]
      omega
    · rw [if_neg hb]
      obtain ⟨ih1, ih2, ih3, ih4⟩ := ih (shown + 1) (by omega)
      simp only [List.countP_append, hItem x, List.length_cons]
      omega

theorem renderGroupsCapped_count (cfg : GroupRenderCfg α) (maxI total : Nat)
    (p : Str → Bool)
    (hItem : ∀ x, (cfg.mkItem x).countP p = 1)
    (hHeader : ∀ k g, p (cfg.mkHeader k g) = false)
    (hNote : ∀ n, p (cfg.mkNote n) = false)
    (hBlank : p [] = false) :
    ∀ (gs : List (Str × List α)) (shown : Nat), shown ≤ maxI →
      ((renderGroupsCapped cfg maxI total gs shown).1.countP p) + shown =
          (renderGroupsCapped cfg maxI total gs shown).2.1 ∧
        shown ≤ (renderGroupsCapped cfg maxI total gs shown).2.1 ∧
        (renderGroupsCapped cfg maxI total gs shown).2.1 ≤ maxI := by
  intro gs
  induction gs with
  | nil =>
    intro shown h
    simp only [renderGroupsCapped, List.countP_nil]
    omega
  | cons kg gs ih =>
    intro shown h
    obtain ⟨k, g⟩ := kg
    rw [renderGroupsCapped_cons]
    by_cases hb : maxI ≤ shown
    · rw [if_pos hb]
      simp [hNote]
      omega
    · rw [if_neg hb]
      obtain ⟨i1, i2, i3, _⟩ :=
        renderItemsCapped_count cfg maxI p hItem (cfg.mkItems g) shown (by omega)
      obtain ⟨g1, g2, g3⟩ := ih _ i3
      simp only [List.countP_cons, List.countP_append, hHeader, hBlank,
        if_neg, Bool.false_eq_true, ite_false]
      omega

theorem renderItemsCapped_shown (cfg : GroupRenderCfg α) (maxI : Nat) :
    ∀ (xs : List α) (shown : Nat), shown < maxI →
      (renderItemsCapped cfg maxI xs shown).2 = min maxI (shown + xs.length) := by
  intro xs
  induction xs with
  | nil =>
    intro shown h
    simp only [renderItemsCapped, List.length_nil]
    omega
  | cons x xs ih =>
    intro shown h
    rw [renderItemsCapped_cons]
    by_cases hb : maxI ≤ shown + 1
    · rw [if_pos hb]
      simp only [List.length_cons]
      omega
    · rw [if_neg hb]
      simp only [List.length_cons]
      rw [ih (shown + 1) (by omega)]
      omega

theorem renderGroupsCapped_noted (cfg : GroupRenderCfg α) (maxI total : Nat)
    (hLen : ∀ g, (cfg.mkItems g).length = g.length) :
    ∀ (gs : List (Str × List α)) (shown : Nat), shown ≤ maxI →
      ((renderGroupsCapped cfg maxI total gs shown).2.2 = true ↔
        (gs ≠ [] ∧
          maxI ≤ shown + (gs.dropLast.map (fun g => g.2.length)).sum)) := by
  intro gs
  induction gs with
  | nil =>
    intro shown h
    simp [renderGroupsCapped]
  | cons kg gs ih =>
    intro shown h
    obtain ⟨k, g⟩ := kg
    rw [renderGroupsCapped_cons]
    by_cases hb : maxI ≤ shown
    · rw [if_pos hb]
      exact ⟨fun _ => ⟨by simp, by omega⟩, fun _ => rfl⟩
    · rw [if_neg hb]
      have hs' := renderItemsCapped_shown cfg maxI (cfg.mkItems g) shown (by omega)
      rw [hLen g] at hs'
      cases gs with
      | nil =>
        simp only [renderGroupsCapped, List.dropLast_single, List.map_nil,
          List.sum_nil]
        simp
        omega
      | cons kg2 gs2 =>
        have hle : (renderItemsCapped cfg maxI (cfg.mkItems g) shown).2 ≤ maxI := by
          rw [hs']; omega
        rw [ih _ hle, hs']
        simp only [ne_eq, List.cons_ne_nil, not_false_iff, true_and,
          List.dropLast_cons₂, List.map_cons, List.sum_cons]
        omega

theorem renderGroupsCapped_note_mem (cfg : GroupRenderCfg α) (maxI total : Nat) :
    ∀ (gs : List (Str × List α)) (shown : Nat),
      (renderGroupsCapped cfg maxI total gs shown).2.2 = true →
        cfg.mkNote (total - (renderGroupsCapped cfg maxI total gs shown).2.1) ∈
          (renderGroupsCapped cfg maxI total gs shown).1 := by
  intro gs
  induction gs with
  | nil => intro shown h; simp [renderGroupsCapped] at h
  | cons kg gs ih =>
    intro shown h
    obtain ⟨k, g⟩ := kg
    rw [renderGroupsCapped_cons] at h ⊢
    by_cases hb : maxI ≤ shown
    · rw [if_pos hb]
      simp
    · rw [if_neg hb] at h ⊢
      have := ih _ h
      exact List.mem_cons_of_mem _ (List.mem_append_right _ (List.mem_cons_of_mem _ this))

/- =====================================================================
Claim C7: circuit breaker threshold behavior
===================================================================== -/

theorem take2_ne (a rest : Str) (hlen : 2 ≤ a.length) (h : a.take 2 ≠ str "\n#") :
    (a ++ rest).take 2 ≠ str "\n#" := by
  rw [List.take_append_of_le_length hlen]; exact h

theorem cbBlock_take2 (b : Nat) : (cbBlock b).take 2 = str "\n#" := by
  simp only [cbBlock, List.append_assoc]
  rw [List.take_append_of_le_length (by decide : (2 : Nat) ≤ cbPrefix.length)]
  decide

theorem format_circuit_breaker_lt (a : Nat) (h : a < 3) :
    format_circuit_breaker a = [] := by
  rw [format_circuit_breaker, if_pos h]

theorem format_circuit_breaker_ge (a : Nat) (h : 3 ≤ a) :
    format_circuit_breaker a = cbBlock a := by
  rw [format_circuit_breaker, if_neg (by omega)]

theorem compileErrPart_ok (errors : List CompilerDiagnostic) (maxI : Nat) :
    ∀ l ∈ compileErrPart errors maxI, l.take 2 ≠ str "\n#" := by
  intro l hl
  rw [compileErrPart] at hl
  split at hl
  · simp at hl
  · rcases List.mem_cons.mp hl with h | h
    · subst h; decide
    · refine renderGroupsCapped_forall compileCfg maxI errors.length
        (fun l => l.take 2 ≠ str "\n#") ?_ ?_ ?_ ?_ _ _ l h
      · intro k g
        simp only [compileCfg, errFileHeader, List.append_assoc]
        exact take2_ne _ _ (by decide) (by decide)
      · intro x l2 hl2
        simp only [compileCfg, List.mem_singleton] at hl2
        subst hl2
        simp only [errItemLine, List.append_assoc]
        exact take2_ne _ _ (by decide) (by decide)
      · intro n
        simp only [compileCfg, errTruncNote, List.append_assoc]
        exact take2_ne _ _ (by decide) (by decide)
      · decide

theorem compileWarnPart_ok (warnings : List CompilerDiagnostic) :
    ∀ l ∈ compileWarnPart warnings, l.take 2 ≠ str "\n#" := by
  intro l hl
  rw [compileWarnPart] at hl
  split at hl
  · simp at hl
  · rcases List.mem_append.mp hl with h | h
    · rcases List.mem_cons.mp h with h2 | h2
      · subst h2
        simp only [List.append_assoc]
        exact take2_ne _ _ (by decide) (by decide)
      · rcases List.mem_append.mp h2 with h3 | h3
        · obtain ⟨d, _, hd⟩ := List.mem_map.mp h3
          subst hd
          simp only [warnLine, List.append_assoc]
          exact take2_ne _ _ (by decide) (by decide)
        · split at h3
          · simp only [List.mem_singleton] at h3
            subst h3
            simp only [List.append_assoc]
            exact take2_ne _ _ (by decide) (by decide)
          · simp at h3
    · simp only [List.mem_singleton] at h
      subst h; decide

theorem compile_lines_ok (diags : List CompilerDiagnostic) (maxI : Nat)
    (scheme : Option Str) (a : Nat) (ha : a < 3) :
    ∀ l ∈ format_compile_markdown_lines diags maxI scheme a,
      l.take 2 ≠ str "\n#" := by
  intro l hl
  simp only [format_compile_markdown_lines, format_circuit_breaker_lt a ha,
    List.isEmpty_nil, if_pos, List.append_nil] at hl
  have hheader : ∀ ne nw, (compileHeader ne nw scheme).take 2 ≠ str "\n#" := by
    intro ne nw
    simp only [compileHeader, List.append_assoc]
    exact take2_ne _ _ (by decide) (by decide)
  split at hl
  · rcases List.mem_cons.mp hl with h | h
    · subst h; exact hheader _ _
    · simp only [List.mem_singleton] at h
      subst h; decide
  · rcases List.mem_cons.mp hl with h | h
    · subst h; exact hheader _ _
    · rcases List.mem_append.mp h with h2 | h2
      · exact compileErrPart_ok _ _ l h2
      · exact compileWarnPart_ok _ l h2

/-- C7 (amended).  The Markdown rendering at attempt at most 2 equals the
attempt-0 rendering and never contains the circuit-breaker block; at attempt
at least 3 it is the attempt-0 rendering with the block appended — provided
the report is not the clean-build early return, which skips the block — and
the block is the fixed template with the attempt number interpolated,
ending in the five numbered steps verbatim.  The JSON payload is unchanged
across the threshold except for its attempt field and its circuit_breaker
flag, the latter true exactly when attempt is at least 3. -/
theorem format_compile_circuit_breaker_threshold (diags : List CompilerDiagnostic)
    (maxI : Nat) (scheme : Option Str) (a : Nat) :
    (a ≤ 2 →
      format_compile_markdown_lines diags maxI scheme a =
          format_compile_markdown_lines diags maxI scheme 0 ∧
        ∀ b, cbBlock b ∉ format_compile_markdown_lines diags maxI scheme a) ∧
    (3 ≤ a →
      (((diags.filter (fun d => decide (d.severity = Sev.error))).isEmpty = false ∨
        (diags.filter (fun d => decide (d.severity = Sev.warning))).isEmpty = false) →
        format_compile_markdown_lines diags maxI scheme a =
          format_compile_markdown_lines diags maxI scheme 0 ++ [cbBlock a]) ∧
      cbBlock a = cbPrefix ++ natStr a ++ cbMid ++ cbSteps) ∧
    format_compile_json diags a =
      { format_compile_json diags 0 with
          attempt := a, circuit_breaker := decide (3 ≤ a) } := by
  refine ⟨?_, ?_, ?_⟩
  · intro ha
    constructor
    · simp only [format_compile_markdown_lines,
        format_circuit_breaker_lt a (by omega),
        format_circuit_breaker_lt 0 (by omega)]
    · intro b hmem
      have := compile_lines_ok diags maxI scheme a (by omega) _ hmem
      exact this (cbBlock_take2 b)
  · intro ha
    refine ⟨?_, rfl⟩
    intro hne
    have hcb : (format_circuit_breaker a).isEmpty = false := by
      rw [format_circuit_breaker_ge a ha, cbBlock]
      rfl
    have hcond :
        ((diags.filter (fun d => decide (d.severity = Sev.error))).isEmpty &&
          (diags.filter (fun d => decide (d.severity = Sev.warning))).isEmpty) = false := by
      rcases hne with h | h <;> simp [h]
    simp only [format_compile_markdown_lines, hcond, Bool.false_eq_true, if_false,
      format_circuit_breaker_lt 0 (by omega), List.isEmpty_nil, if_pos,
      List.append_nil, hcb, format_circuit_breaker_ge a ha]
    simp [List.append_assoc]
    intro hc
    have h2 := cbBlock_take2 a
    rw [hc] at h2
    exact absurd h2 (by decide)
  · rfl

/-- Witness for C7 at concrete inputs: one error diagnostic rendered at
attempts 2 and 3. -/
theorem format_compile_circuit_breaker_threshold_witness :
    (format_compile_markdown_lines [c1DupDiag] 20 none 2 =
        format_compile_markdown_lines [c1DupDiag] 20 none 0 ∧
      format_compile_markdown_lines [c1DupDiag] 20 none 3 =
        format_compile_markdown_lines [c1DupDiag] 20 none 0 ++ [cbBlock 3]) ∧
    format_compile_json [c1DupDiag] 3 =
      { format_compile_json [c1DupDiag] 0 with
          attempt := 3, circuit_breaker := decide ((3 : Nat) ≤ 3) } :=
  ⟨⟨((format_compile_circuit_breaker_threshold [c1DupDiag] 20 none 2).1
      (by omega)).1,
    ((format_compile_circuit_breaker_threshold [c1DupDiag] 20 none 3).2.1
      (by omega)).1 (Or.inl (by decide))⟩,
   (format_compile_circuit_breaker_threshold [c1DupDiag] 20 none 3).2.2⟩

/-- Counterexample for C7: the JSON payload also changes its attempt field
across the threshold (not only the circuit_breaker flag), and the clean-build
Markdown rendering at attempt 3 does not contain the escalation block at
all. -/
theorem format_compile_json_attempt_changes :
    format_compile_json [] 3 ≠
      { format_compile_json [] 2 with circuit_breaker := true } ∧
    cbBlock 3 ∉ format_compile_markdown_lines [] 20 none 3 := by
  constructor
  · decide
  · decide

/- =====================================================================
TSan sanitizer: data model and parser (tsan-sanitizer.py)
===================================================================== -/

/-- The TSanIssue dataclass from tsan-sanitizer.py. -/
structure TSanIssue where
  issue_type : Str
  location : Str
  function : Str
  thread_id : Str
  stack_trace : List Str
deriving DecidableEq

/-- Join a list of strings with a separator string (Python str.join). -/
def intercal (sep : Str) : List Str → Str
  | [] => []
  | [s] => s
  | s :: ss => s ++ sep ++ intercal sep ss

/-- Method TSanIssue.signature from tsan-sanitizer.py: top 3 stack frames
plus issue type and function name. -/
def TSanIssue.signature (i : TSanIssue) : Str :=
  i.issue_type ++ str ":" ++ i.function ++ str ":" ++
    intercal (str "->") (i.stack_trace.take 3)

/-- The signature formula as worded by the spec: kind + ":" + function +
":" + join(first 3 stack frames, "->"), stated for refinement comparison. -/
def signatureSpec (i : TSanIssue) : Str :=
  i.issue_type ++ str ":" ++ i.function ++ str ":" ++
    intercal (str "->") (i.stack_trace.take 3)

/-- Search of the ISSUE_START pattern: the text between the leftmost literal
issue marker and the first following open-parenthesis marker. -/
def issueStartMatch (l : Str) : Option Str :=
  match splitFirst (str "WARNING: ThreadSanitizer: ") l with
  | none => none
  | some (_, rest) =>
    match splitFirst (str " (") rest with
    | none => none
    | some (g, _) => some g

/-- Search of the THREAD_ID pattern Thread T followed by digits. -/
def threadIdMatch (l : Str) : Option Str := searchLitDigits (str "Thread T") l

/-- Lazy second group of the LOCATION tail: the shortest non-empty prefix
followed by a colon and at least one digit; acc holds the reversed prefix
tried so far.  Returns the group and the maximal digit run. -/
def grp2Search (acc : Str) : Str → Option (Str × Str)
  | [] => none
  | c :: rest =>
    if c = ':' && !acc.isEmpty then
      match rest with
      | d :: _ =>
        if isDigitC d then some (acc.reverse, rest.takeWhile isDigitC)
        else grp2Search (c :: acc) rest
      | [] => none
    else grp2Search (c :: acc) rest

/-- Greedy-with-backtracking whitespace run before the second lazy group of
LOCATION: try consuming the longest run first, then shorter runs down to one
character (wsRev holds the consumed run, reversed). -/
def wsBacktrack (wsRev : Str) (tail : Str) : Option (Str × Str) :=
  match grp2Search [] tail with
  | some r => some r
  | none =>
    match wsRev with
    | [] => none
    | [_] => none
    | c :: rest => wsBacktrack rest (c :: tail)

/-- Lazy first group of the LOCATION tail: grow the function group one
character at a time; at each whitespace boundary try the remaining
whitespace-then-file-then-line match. -/
def locTailSearch (g1rev : Str) : Str → Option (Str × Str × Str)
  | [] => none
  | c :: rest =>
    if isWsC c && !g1rev.isEmpty then
      match wsBacktrack (c :: rest.takeWhile isWsC).reverse (rest.dropWhile isWsC) with
      | some (g2, ds) => some (g1rev.reverse, g2, ds)
      | none => locTailSearch (c :: g1rev) rest
    else locTailSearch (c :: g1rev) rest

/-- Greedy-with-backtracking whitespace run after the frame index of
LOCATION, delegating to the lazy tail search. -/
def wsBacktrackLoc (wsRev : Str) (tail : Str) : Option (Str × Str × Str) :=
  match locTailSearch [] tail with
  | some r => some r
  | none =>
    match wsRev with
    | [] => none
    | [_] => none
    | c :: rest => wsBacktrackLoc rest (c :: tail)

/-- Search of the LOCATION pattern (anchored at the line start): optional
whitespace, a hash-prefixed frame index, whitespace, then the lazy
function/file/line tail. -/
def locMatch (l : Str) : Option (Str × Str × Str) :=
  match l.dropWhile isWsC with
  | '#' :: r1 =>
    let ds := r1.takeWhile isDigitC
    if ds.isEmpty then none
    else
      let r2 := r1.drop ds.length
      let run := r2.takeWhile isWsC
      if run.isEmpty then none
      else wsBacktrackLoc run.reverse (r2.drop run.length)
  | _ => none

/-- A fresh issue created at an issue-start marker. -/
def initIssue (k : Str) : TSanIssue :=
  { issue_type := k, location := [], function := [], thread_id := [],
    stack_trace := [] }

/-- The body of the parse loop for a line inside an issue: an optional
thread-id extraction (overwriting the field on every match) followed by an
optional stack-frame extraction (the first frame also seeds the primary
location and function). -/
def tsanStepIssue (i : TSanIssue) (line : Str) : TSanIssue :=
  let i1 :=
    match threadIdMatch line with
    | some t => { i with thread_id := t }
    | none => i
  match locMatch line with
  | some (fn, fp, ln) =>
    let fnS := strip fn
    let i2 :=
      if i1.location.isEmpty then
        { i1 with location := fp ++ str ":" ++ ln, function := fnS }
      else i1
    { i2 with stack_trace := i2.stack_trace ++
        [fnS ++ str " (" ++ fp ++ str ":" ++ ln ++ str ")"] }
  | none => i1

/-- The state of TSanParser.parse: the issue being built and the finished
issues. -/
structure TSParseState where
  current : Option TSanIssue
  issues : List TSanIssue

/-- One line of TSanParser.parse. -/
def tsanStep (s : TSParseState) (line : Str) : TSParseState :=
  match issueStartMatch line with
  | some k =>
    match s.current with
    | some cur => { current := some (initIssue k), issues := s.issues ++ [cur] }
    | none => { current := some (initIssue k), issues := s.issues }
  | none =>
    match s.current with
    | none => s
    | some cur => { s with current := some (tsanStepIssue cur line) }

/-- Method TSanParser.parse over the already-split lines. -/
def tsanParseLines (lines : List Str) : List TSanIssue :=
  let s := lines.foldl tsanStep { current := none, issues := [] }
  match s.current with
  | some cur => s.issues ++ [cur]
  | none => s.issues

/-- Method TSanParser.parse from tsan-sanitizer.py (raw text split on
newlines). -/
def TSanParser.parse (raw : Str) : List TSanIssue :=
  tsanParseLines (splitOnChar '\n' raw)

/-- Method TSanSanitizer.analyze from tsan-sanitizer.py: group issues by
signature, preserving first-occurrence key order and within-group parse
order (only the grouping component; the file/function tallies are not used
by the claims). -/
def TSanSanitizer.analyze (issues : List TSanIssue) : List (Str × List TSanIssue) :=
  issues.foldl (fun acc i => upsertGroup i.signature i acc) []

/-- The ranked view of TSanSanitizer.print_grouped_issues: groups sorted
stably by descending member count, truncated to the display limit. -/
def TSanSanitizer.print_grouped_issues_view
    (grouped : List (Str × List TSanIssue)) (limit : Nat) :
    List (Str × List TSanIssue) :=
  (stableSort (fun a b => decide (b.2.length ≤ a.2.length)) grouped).take limit

/- =====================================================================
Lemmas about grouping and stable sorting (claim C2)
===================================================================== -/

theorem find?_eq_head?_filter (p : α → Bool) (l : List α) :
    l.find? p = (l.filter p).head? := by
  induction l with
  | nil => rfl
  | cons x xs ih =>
    cases h : p x
    · rw [List.find?_cons_of_neg _ (by simp [h]), List.filter_cons_of_neg (by simp [h]), ih]
    · rw [List.find?_cons_of_pos _ h, List.filter_cons_of_pos h]
      rfl

theorem upsertGroup_keys (k : Str) (x : α) (acc : List (Str × List α)) :
    (upsertGroup k x acc).map Prod.fst =
      if k ∈ acc.map Prod.fst then acc.map Prod.fst
      else acc.map Prod.fst ++ [k] := by
  induction acc with
  | nil => simp [upsertGroup]
  | cons kg rest ih =>
    obtain ⟨k0, g0⟩ := kg
    by_cases h : k0 = k
    · subst h
      simp [upsertGroup]
    · simp only [upsertGroup, if_neg h, List.map_cons, ih]
      by_cases h2 : k ∈ rest.map Prod.fst
      · rw [if_pos h2, if_pos (List.mem_cons_of_mem _ h2)]
      · rw [if_neg h2, if_neg ?_, List.cons_append]
        intro hc
        rcases List.mem_cons.mp hc with hc1 | hc1
        · exact h hc1.symm
        · exact h2 hc1

theorem upsertGroup_char (k : Str) (x : α) :
    ∀ (acc : List (Str × List α)), (acc.map Prod.fst).Nodup →
      ∀ s g', (s, g') ∈ upsertGroup k x acc →
        (s = k ∧ k ∉ acc.map Prod.fst ∧ g' = [x]) ∨
        (s = k ∧ ∃ g, (k, g) ∈ acc ∧ g' = g ++ [x]) ∨
        (s ≠ k ∧ (s, g') ∈ acc) := by
  intro acc
  induction acc with
  | nil =>
    intro _ s g' hmem
    simp only [upsertGroup, List.mem_singleton, Prod.mk.injEq] at hmem
    exact Or.inl ⟨hmem.1, by simp, hmem.2⟩
  | cons kg rest ih =>
    intro hnd s g' hmem
    obtain ⟨k0, g0⟩ := kg
    simp only [List.map_cons, List.nodup_cons] at hnd
    simp only [upsertGroup] at hmem
    by_cases h : k0 = k
    · rw [if_pos h] at hmem
      rcases List.mem_cons.mp hmem with heq | hmem2
      · have hs : s = k0 := congrArg Prod.fst heq
        have hg : g' = g0 ++ [x] := congrArg Prod.snd heq
        refine Or.inr (Or.inl ⟨hs.trans h, g0, ?_, hg⟩)
        rw [← h]
        exact List.mem_cons_self _ _
      · have hs : s ≠ k := by
          intro hc
          apply hnd.1
          rw [← h] at hc
          rw [← hc]
          exact List.mem_map_of_mem Prod.fst hmem2
        exact Or.inr (Or.inr ⟨hs, List.mem_cons_of_mem _ hmem2⟩)
    · rw [if_neg h] at hmem
      rcases List.mem_cons.mp hmem with heq | hmem2
      · have hs : s = k0 := congrArg Prod.fst heq
        have hg : g' = g0 := congrArg Prod.snd heq
        refine Or.inr (Or.inr ⟨?_, ?_⟩)
        · rw [hs]; exact h
        · rw [hs, hg]; exact List.mem_cons_self _ _
      · rcases ih hnd.2 s g' hmem2 with ⟨h1, h2, h3⟩ | ⟨h1, g, h2, h3⟩ | ⟨h1, h2⟩
        · refine Or.inl ⟨h1, ?_, h3⟩
          simp only [List.map_cons, List.mem_cons]
          rintro (hc | hc)
          · exact h hc.symm
          · exact h2 hc
        · exact Or.inr (Or.inl ⟨h1, g, List.mem_cons_of_mem _ h2, h3⟩)
        · exact Or.inr (Or.inr ⟨h1, List.mem_cons_of_mem _ h2⟩)

theorem groupFold_char (key : α → Str) :
    ∀ (xs : List α) (acc : List (Str × List α)) (processed : List α),
      (acc.map Prod.fst).Nodup →
      (∀ s g, (s, g) ∈ acc → g = processed.filter (fun x => decide (key x = s))) →
      (∀ y ∈ processed, key y ∈ acc.map Prod.fst) →
      (((xs.foldl (fun a x => upsertGroup (key x) x a) acc).map Prod.fst).Nodup ∧
        (∀ s g, (s, g) ∈ xs.foldl (fun a x => upsertGroup (key x) x a) acc →
          g = (processed ++ xs).filter (fun x => decide (key x = s)))) := by
  intro xs
  induction xs with
  | nil =>
    intro acc processed hnd hchar _
    exact ⟨hnd, fun s g h => by simpa using hchar s g h⟩
  | cons x xs ih =>
    intro acc processed hnd hchar hcover
    have hnd' : ((upsertGroup (key x) x acc).map Prod.fst).Nodup := by
      rw [upsertGroup_keys]
      split
      · exact hnd
      · rename_i hni
        simp only [List.nodup_append, List.nodup_singleton]
        exact ⟨hnd, by simpa using fun hc => hni hc⟩
    have hchar' : ∀ s g, (s, g) ∈ upsertGroup (key x) x acc →
        g = (processed ++ [x]).filter (fun y => decide (key y = s)) := by
      intro s g hmem
      rcases upsertGroup_char (key x) x acc hnd s g hmem with
        ⟨h1, h2, h3⟩ | ⟨h1, g0, h2, h3⟩ | ⟨h1, h2⟩
      · subst h1
        have : processed.filter (fun y => decide (key y = key x)) = [] := by
          rw [List.filter_eq_nil_iff]
          intro y hy
          simp only [decide_eq_true_eq]
          intro hc
          exact h2 (by rw [← hc]; exact hcover y hy)
        rw [List.filter_append, this, h3]
        simp
      · subst h1
        rw [List.filter_append, ← hchar _ _ h2, h3]
        simp
      · rw [List.filter_append, ← hchar _ _ h2]
        simp [Ne.symm h1]
    have hcover' : ∀ y ∈ processed ++ [x],
        key y ∈ (upsertGroup (key x) x acc).map Prod.fst := by
      intro y hy
      rw [upsertGroup_keys]
      rcases List.mem_append.mp hy with h | h
      · split
        · exact hcover y h
        · exact List.mem_append_left _ (hcover y h)
      · simp only [List.mem_singleton] at h
        subst h
        split
        · assumption
        · simp
    have := ih (upsertGroup (key x) x acc) (processed ++ [x]) hnd' hchar' hcover'
    refine ⟨this.1, fun s g h => ?_⟩
    have hg := this.2 s g h
    rw [hg]
    simp [List.append_assoc]

theorem stableInsert_decomp (le : α → α → Bool) (x : α) :
    ∀ l : List α, ∃ l1 l2, l = l1 ++ l2 ∧
      stableInsert le x l = l1 ++ x :: l2 ∧ ∀ y ∈ l1, le x y = false := by
  intro l
  induction l with
  | nil => exact ⟨[], [], rfl, rfl, by simp⟩
  | cons y ys ih =>
    by_cases h : le x y
    · exact ⟨[], y :: ys, rfl, by simp [stableInsert, h], by simp⟩
    · obtain ⟨l1, l2, he, hi, hf⟩ := ih
      refine ⟨y :: l1, l2, by rw [List.cons_append, ← he], ?_, ?_⟩
      · simp only [stableInsert, if_neg h, hi, List.cons_append]
      · intro z hz
        rcases List.mem_cons.mp hz with hz1 | hz1
        · subst hz1
          exact Bool.not_eq_true _ ▸ eq_false_of_ne_true h
        · exact hf z hz1

theorem mem_stableInsert (le : α → α → Bool) (x : α) (l : List α) (z : α) :
    z ∈ stableInsert le x l ↔ z = x ∨ z ∈ l := by
  obtain ⟨l1, l2, he, hi, _⟩ := stableInsert_decomp le x l
  rw [hi, he]
  simp only [List.mem_append, List.mem_cons]
  tauto

theorem stableInsert_pairwise (le : α → α → Bool)
    (htot : ∀ a b, le a b = false → le b a = true)
    (htrans : ∀ a b c, le a b = true → le b c = true → le a c = true)
    (x : α) :
    ∀ l, List.Pairwise (fun a b => le a b = true) l →
      List.Pairwise (fun a b => le a b = true) (stableInsert le x l) := by
  intro l
  induction l with
  | nil => intro _; simp [stableInsert]
  | cons y ys ih =>
    intro hp
    rw [List.pairwise_cons] at hp
    by_cases h : le x y
    · simp only [stableInsert, if_pos h]
      rw [List.pairwise_cons]
      refine ⟨?_, List.pairwise_cons.mpr hp⟩
      intro z hz
      rcases List.mem_cons.mp hz with hz1 | hz1
      · subst hz1; exact h
      · exact htrans x y z h (hp.1 z hz1)
    · simp only [stableInsert, if_neg h]
      rw [List.pairwise_cons]
      refine ⟨?_, ih hp.2⟩
      intro z hz
      rcases (mem_stableInsert le x ys z).mp hz with hz1 | hz1
      · rw [hz1]
        exact htot x y (eq_false_of_ne_true h)
      · exact hp.1 z hz1

theorem stableSort_pairwise (le : α → α → Bool)
    (htot : ∀ a b, le a b = false → le b a = true)
    (htrans : ∀ a b c, le a b = true → le b c = true → le a c = true) :
    ∀ l, List.Pairwise (fun a b => le a b = true) (stableSort le l) := by
  intro l
  induction l with
  | nil => simp [stableSort]
  | cons x xs ih => exact stableInsert_pairwise le htot htrans x _ ih

theorem stableSort_filter (le : α → α → Bool) (p : α → Bool)
    (hcompat : ∀ x y, p x = true → p y = true → le x y = true) :
    ∀ l, (stableSort le l).filter p = l.filter p := by
  intro l
  induction l with
  | nil => rfl
  | cons x xs ih =>
    obtain ⟨l1, l2, he, hi, hf⟩ := stableInsert_decomp le x (stableSort le xs)
    show (stableInsert le x (stableSort le xs)).filter p = _
    rw [hi, List.filter_append]
    cases hx : p x
    · rw [List.filter_cons_of_neg (by simp [hx]), ← List.filter_append, ← he, ih,
        List.filter_cons_of_neg (by simp [hx])]
    · have hl1 : l1.filter p = [] := by
        rw [List.filter_eq_nil_iff]
        intro y hy hpy
        have := hcompat x y hx hpy
        rw [hf y hy] at this
        exact Bool.false_ne_true this
      rw [List.filter_cons_of_pos hx, hl1, List.nil_append,
        List.filter_cons_of_pos hx]
      have : l2.filter p = (stableSort le xs).filter p := by
        rw [he, List.filter_append, hl1, List.nil_append]
      rw [this, ih]

/-- C2.  The race-issue signature is exactly the spec formula kind + colon +
function + colon + the first 3 stack frames joined by arrows; each analyzed
group collects precisely the parsed issues bearing its signature in parse
order, so the group representative (its head) is the first-parsed member;
and the grouped-issue view is sorted by descending member count with
equal-count groups kept in parse order (stability stated as filter
preservation), truncated to the display limit. -/
theorem tsan_signature_grouping (issues : List TSanIssue) (limit : Nat) :
    (∀ i : TSanIssue, i.signature = signatureSpec i) ∧
    (∀ s g, (s, g) ∈ TSanSanitizer.analyze issues →
      g = issues.filter (fun i => decide (i.signature = s)) ∧
      g.head? = issues.find? (fun i => decide (i.signature = s))) ∧
    List.Pairwise (fun a b => b.2.length ≤ a.2.length)
      (TSanSanitizer.print_grouped_issues_view (TSanSanitizer.analyze issues) limit) ∧
    (∀ n, (stableSort (fun a b => decide (b.2.length ≤ a.2.length))
          (TSanSanitizer.analyze issues)).filter
        (fun g => decide (g.2.length = n)) =
      (TSanSanitizer.analyze issues).filter (fun g => decide (g.2.length = n))) := by
  refine ⟨fun i => rfl, ?_, ?_, ?_⟩
  · intro s g hmem
    have h := groupFold_char (fun i : TSanIssue => i.signature) issues [] []
      (by simp) (by simp) (by simp)
    have hg := h.2 s g hmem
    simp only [List.nil_append] at hg
    exact ⟨hg, by rw [hg, find?_eq_head?_filter]⟩
  · have hs := stableSort_pairwise
      (fun a b : Str × List TSanIssue => decide (b.2.length ≤ a.2.length))
      (by intro a b hab; simp only [decide_eq_false_iff_not, not_le] at hab
          simp only [decide_eq_true_eq]; omega)
      (by intro a b c h1 h2; simp only [decide_eq_true_eq] at h1 h2 ⊢; omega)
      (TSanSanitizer.analyze issues)
    have hsub := hs.sublist (List.take_sublist limit _)
    exact hsub.imp (fun h => by simpa using h)
  · intro n
    exact stableSort_filter _ _
      (by intro x y hx hy
          simp only [decide_eq_true_eq] at hx hy ⊢
          omega) _

/-- A first concrete race issue for the C2 witness. -/
def tsanIssueA : TSanIssue :=
  { issue_type := str "data race", location := str "a:1", function := str "f",
    thread_id := str "1", stack_trace := [str "fa"] }

/-- A second concrete race issue with a distinct signature. -/
def tsanIssueB : TSanIssue :=
  { issue_type := str "lock-order-inversion", location := str "b:2",
    function := str "g", thread_id := str "2", stack_trace := [str "gb"] }

/-- A third concrete race issue sharing the first issue's signature. -/
def tsanIssueA2 : TSanIssue :=
  { issue_type := str "data race", location := str "a:1", function := str "f",
    thread_id := str "3", stack_trace := [str "fa"] }

/-- The concrete issue list of the C2 witness. -/
def tsanWitnessIssues : List TSanIssue := [tsanIssueA, tsanIssueB, tsanIssueA2]

/-- Witness for C2: on a concrete parse with a duplicated signature, the
group is the filtered parse-order list and its head is the first-parsed
member. -/
theorem tsan_signature_grouping_witness :
    ([tsanIssueA, tsanIssueA2] : List TSanIssue) =
        tsanWitnessIssues.filter
          (fun i => decide (i.signature = str "data race:f:fa")) ∧
    ([tsanIssueA, tsanIssueA2] : List TSanIssue).head? =
        tsanWitnessIssues.find?
          (fun i => decide (i.signature = str "data race:f:fa")) :=
  (tsan_signature_grouping tsanWitnessIssues 10).2.1
    (str "data race:f:fa") [tsanIssueA, tsanIssueA2] (by decide)

/- =====================================================================
Claim C5: thread-id extraction inside one issue
===================================================================== -/

theorem tsanStepIssue_thread (i : TSanIssue) (l : Str) :
    (tsanStepIssue i l).thread_id = (threadIdMatch l).getD i.thread_id := by
  cases ht : threadIdMatch l <;>
    cases hl : locMatch l <;>
      simp only [tsanStepIssue, ht, hl, Option.getD] <;>
        (try split) <;> rfl

theorem tsanFold_no_start :
    ∀ (ls : List Str), (∀ l ∈ ls, issueStartMatch l = none) →
      ∀ (i : TSanIssue) (iss : List TSanIssue),
        ls.foldl tsanStep { current := some i, issues := iss } =
          { current := some (ls.foldl tsanStepIssue i), issues := iss } := by
  intro ls
  induction ls with
  | nil => intro _ i iss; rfl
  | cons l ls ih =>
    intro hno i iss
    have h0 : issueStartMatch l = none := hno l (List.mem_cons_self _ _)
    rw [List.foldl_cons, List.foldl_cons]
    have hstep : tsanStep { current := some i, issues := iss } l =
        { current := some (tsanStepIssue i l), issues := iss } := by
      simp [tsanStep, h0]
    rw [hstep]
    exact ih (fun l hl => hno l (List.mem_cons_of_mem _ hl)) _ _

theorem foldIssue_thread :
    ∀ (ls : List Str) (i : TSanIssue),
      (ls.foldl tsanStepIssue i).thread_id =
        ((ls.filterMap threadIdMatch).getLast?).getD i.thread_id := by
  intro ls
  induction ls with
  | nil => intro i; rfl
  | cons l ls ih =>
    intro i
    rw [List.foldl_cons, ih, List.filterMap_cons]
    cases ht : threadIdMatch l
    · rw [tsanStepIssue_thread, ht]
      simp
    · rw [tsanStepIssue_thread, ht]
      simp only [Option.getD_some]
      cases hfm : ls.filterMap threadIdMatch with
      | nil => simp
      | cons a fm' =>
        rw [List.getLast?_cons_cons]
        cases hg : (a :: fm').getLast? with
        | none => simp at hg
        | some y => rfl

/-- C5 (amended).  Within one parsed issue the thread id is overwritten by
every thread-id marker, so the parsed issue's thread id equals the id of the
LAST such marker among its lines (empty when there is none); the first
marker does not win. -/
theorem tsan_thread_id_last_wins (l0 : Str) (ls : List Str) (k : Str)
    (h0 : issueStartMatch l0 = some k)
    (hno : ∀ l ∈ ls, issueStartMatch l = none) :
    (tsanParseLines (l0 :: ls)).map (fun i => i.thread_id) =
      [((ls.filterMap threadIdMatch).getLast?).getD []] := by
  have hstep0 : tsanStep { current := none, issues := [] } l0 =
      { current := some (initIssue k), issues := [] } := by
    simp [tsanStep, h0]
  simp only [tsanParseLines, List.foldl_cons, hstep0,
    tsanFold_no_start ls hno (initIssue k) []]
  simp only [List.nil_append, List.map_cons, List.map_nil, foldIssue_thread]
  rfl

/-- Witness for C5: a concrete single-issue input whose lines carry two
thread markers parses to the id of the last one. -/
theorem tsan_thread_id_last_wins_witness :
    (tsanParseLines
        [str "WARNING: ThreadSanitizer: data race (pid=1)",
         str "  Thread T1 acquired here",
         str "  Thread T2 released there"]).map (fun i => i.thread_id) =
      [(([str "  Thread T1 acquired here",
          str "  Thread T2 released there"].filterMap threadIdMatch).getLast?).getD []] :=
  tsan_thread_id_last_wins
    (str "WARNING: ThreadSanitizer: data race (pid=1)")
    [str "  Thread T1 acquired here", str "  Thread T2 released there"]
    (str "data race") (by decide) (by decide)

/-- Counterexample for C5: with markers for threads 1 then 2, the parsed
thread id is 2 (the last marker), not 1 (the first) as the claim states. -/
theorem tsan_thread_id_not_first :
    (TSanParser.parse
        (str "WARNING: ThreadSanitizer: data race (pid=1)\n  Thread T1 here\n  Thread T2 there")).map
        (fun i => i.thread_id) = [str "2"] ∧
    str "2" ≠ str "1" := by
  exact ⟨by decide, by decide⟩

/- =====================================================================
Concurrency diff linter (parse_diff_for_violations, cmd_lint_diff)
===================================================================== -/

/-- A token of an embedded regular-expression pattern: a literal, optional
whitespace, or mandatory whitespace. -/
inductive PTok where
  | lit (s : Str)
  | ws0
  | ws1

/-- Match a token sequence as a prefix of the input (whitespace tokens are
matched maximally; every literal that follows whitespace in the embedded
patterns starts with a non-whitespace character, so maximal munch agrees
with the backtracking regex semantics). -/
def matchToksFrom : List PTok → Str → Bool
  | [], _ => true
  | .lit s :: ts, r => isPrefix s r && matchToksFrom ts (r.drop s.length)
  | .ws0 :: ts, r => matchToksFrom ts (r.dropWhile isWsC)
  | .ws1 :: ts, r => !(r.takeWhile isWsC).isEmpty && matchToksFrom ts (r.dropWhile isWsC)

/-- Unanchored search of a token sequence (regex search semantics). -/
def searchToks (ts : List PTok) : Str → Bool
  | [] => matchToksFrom ts []
  | c :: rest => matchToksFrom ts (c :: rest) || searchToks ts rest

/-- Pattern @unchecked\s+Sendable. -/
def uncheckedSendableMatch (s : Str) : Bool :=
  searchToks [.lit (str "@unchecked"), .ws1, .lit (str "Sendable")] s

/-- Pattern \.assumeIsolated. -/
def assumeIsolatedMatch (s : Str) : Bool := containsSub (str ".assumeIsolated") s

/-- Pattern DispatchSemaphore\s*\(. -/
def dispatchSemaphoreMatch (s : Str) : Bool :=
  searchToks [.lit (str "DispatchSemaphore"), .ws0, .lit (str "(")] s

/-- Pattern DispatchGroup\(\)\.wait\(\)|dispatchGroup\.wait\(\) with
IGNORECASE. -/
def dispatchGroupWaitMatch (s : Str) : Bool :=
  containsSub (str "dispatchgroup().wait()") (toLowerS s) ||
  containsSub (str "dispatchgroup.wait()") (toLowerS s)

/-- Pattern Task\.detached. -/
def taskDetachedMatch (s : Str) : Bool := containsSub (str "Task.detached") s

/-- Pattern nonisolated\s*\(\s*unsafe\s*\). -/
def nonisolatedUnsafeMatch (s : Str) : Bool :=
  searchToks [.lit (str "nonisolated"), .ws0, .lit (str "("), .ws0,
    .lit (str "unsafe"), .ws0, .lit (str ")")] s

/-- Pattern @preconcurrency\s+import. -/
def preconcurrencyImportMatch (s : Str) : Bool :=
  searchToks [.lit (str "@preconcurrency"), .ws1, .lit (str "import")] s

/-- The FORBIDDEN_PATTERNS rule table (matcher, name, remediation). -/
def FORBIDDEN_PATTERNS : List ((Str → Bool) × Str × Str) :=
  [(uncheckedSendableMatch, str "@unchecked Sendable",
    str "Unsafe concurrency bypass. Use `actor`, `Sendable` value types, or `nonisolated(unsafe)` with justification."),
   (assumeIsolatedMatch, str ".assumeIsolated",
    str "Bypasses compiler isolation checks. Crashes at runtime if assumption is wrong."),
   (dispatchSemaphoreMatch, str "DispatchSemaphore",
    str "Blocks the cooperative thread pool, causing deadlock. Propagate `async` up the call stack instead."),
   (dispatchGroupWaitMatch, str "DispatchGroup.wait()",
    str "Blocks the cooperative thread pool, causing deadlock. Use `async let` or `TaskGroup` instead."),
   (taskDetachedMatch, str "Task.detached",
    str "Breaks structured concurrency. Use `Task \x7b\x7d`, `async let`, or `TaskGroup`. Task.detached is only permitted for root-level background processes with explicit justification.")]

/-- The CONDITIONAL_PATTERNS rule table. -/
def CONDITIONAL_PATTERNS : List ((Str → Bool) × Str × Str) :=
  [(nonisolatedUnsafeMatch, str "nonisolated(unsafe)",
    str "Requires a justification comment on the preceding line. Allowed for `static let` singletons with thread-safe initialization.")]

/-- The WARN_PATTERNS rule table. -/
def WARN_PATTERNS : List ((Str → Bool) × Str × Str) :=
  [(preconcurrencyImportMatch, str "@preconcurrency import",
    str "Verify this is a 3rd-party/system framework. @preconcurrency is strictly forbidden on 1st-party internal modules.")]

/-- The LintViolation dataclass from xcode-distill.py. -/
structure LintViolation where
  file_path : Str
  line_num : Nat
  pattern_name : Str
  severity : Str
  message : Str
  diff_line : Str
deriving DecidableEq

/-- Match of the file-header pattern of the diff scanner. -/
def fileHeaderMatch (l : Str) : Option Str :=
  if isPrefix (str "+++") l then
    let r := l.drop 3
    let w := r.takeWhile isWsC
    if w.isEmpty then none
    else
      let r2 := r.drop w.length
      if isPrefix (str "b/") r2 then
        let g := r2.drop 2
        if g.isEmpty then none else some g
      else none
  else none

/-- Optional comma-plus-digits group of the hunk-header pattern. -/
def optCommaDigits : Str → Str
  | ',' :: r =>
    let d := r.takeWhile isDigitC
    if d.isEmpty then ',' :: r else r.drop d.length
  | r => r

/-- Match of the hunk-header pattern of the diff scanner, returning the
post-change start line. -/
def hunkHeaderMatch (l : Str) : Option Nat :=
  if isPrefix (str "@@") l then
    let r0 := l.drop 2
    let w1 := r0.takeWhile isWsC
    if w1.isEmpty then none
    else
      match r0.drop w1.length with
      | '-' :: r1 =>
        let d1 := r1.takeWhile isDigitC
        if d1.isEmpty then none
        else
          let r2 := optCommaDigits (r1.drop d1.length)
          let w2 := r2.takeWhile isWsC
          if w2.isEmpty then none
          else
            match r2.drop w2.length with
            | '+' :: r3 =>
              let d2 := r3.takeWhile isDigitC
              if d2.isEmpty then none
              else
                let r4 := optCommaDigits (r3.drop d2.length)
                let w3 := r4.takeWhile isWsC
                if w3.isEmpty then none
                else if isPrefix (str "@@") (r4.drop w3.length) then
                  some (natOfDigits d2)
                else none
            | _ => none
      | _ => none
  else none

/-- Set-insertion into the changed-files accumulator. -/
def insertNew (f : Str) (l : List Str) : List Str :=
  if f ∈ l then l else l ++ [f]

/-- The justification test of the conditional patterns: the preceding diff
line, stripped of its plus signs and whitespace, must be a line comment
containing one of the justification keywords. -/
def hasJustification (prev_line : Str) : Bool :=
  let ps := strip (lstripPlus prev_line)
  isPrefix (str "//") ps &&
    (containsSub (str "justification") (toLowerS ps) ||
     containsSub (str "safety") (toLowerS ps) ||
     containsSub (str "thread-safe") (toLowerS ps) ||
     containsSub (str "rationale") (toLowerS ps))

/-- The violations produced for one added non-comment line: the forbidden
table, then the conditional table (suppressed by a justification comment on
the preceding line), then the warning table. -/
def lintLineViolations (file : Str) (line_num : Nat) (prev_line added : Str) :
    List LintViolation :=
  (FORBIDDEN_PATTERNS.filterMap fun p =>
    if p.1 added then
      some { file_path := file
             line_num := line_num
             pattern_name := p.2.1
             severity := str "error"
             message := p.2.2
             diff_line := strip added }
    else none) ++
  (CONDITIONAL_PATTERNS.filterMap fun p =>
    if p.1 added then
      if hasJustification prev_line then none
      else
        some { file_path := file
               line_num := line_num
               pattern_name := p.2.1
               severity := str "error"
               message := str "Missing justification comment. " ++ p.2.2
               diff_line := strip added }
    else none) ++
  (WARN_PATTERNS.filterMap fun p =>
    if p.1 added then
      some { file_path := file
             line_num := line_num
             pattern_name := p.2.1
             severity := str "warning"
             message := p.2.2
             diff_line := strip added }
    else none)

/-- The running state of the diff scanner. -/
structure LintState where
  violations : List LintViolation
  current_file : Str
  current_line : Nat
  changed_files : List Str
  prev_line : Str

/-- One line of the diff scanner of parse_diff_for_violations. -/
def lintStep (s : LintState) (line : Str) : LintState :=
  match fileHeaderMatch line with
  | some f =>
    { s with
        current_file := f
        changed_files := insertNew f s.changed_files
        current_line := 0
        prev_line := [] }
  | none =>
    match hunkHeaderMatch line with
    | some n => { s with current_line := n, prev_line := [] }
    | none =>
      if !(isPrefix (str "+") line) || isPrefix (str "+++") line then
        { s with
            current_line :=
              if isPrefix (str "-") line then s.current_line else s.current_line + 1
            prev_line := line }
      else
        let added := line.drop 1
        let stripped := strip added
        if isPrefix (str "//") stripped || isPrefix (str "/*") stripped ||
            isPrefix (str "*") stripped then
          { s with current_line := s.current_line + 1, prev_line := line }
        else
          { s with
              current_line := s.current_line + 1
              violations := s.violations ++
                lintLineViolations s.current_file (s.current_line + 1)
                  s.prev_line added
              prev_line := line }

/-- The initial scanner state. -/
def lintInit : LintState :=
  { violations := []
    current_file := []
    current_line := 0
    changed_files := []
    prev_line := [] }

/-- The blast-radius message. -/
def blastMsg (n maxf : Nat) : Str :=
  str "Scope Violation: Your concurrency changes modified " ++ natStr n ++
    str " files (max: " ++ natStr maxf ++
    str "). This suggests a viral cascade from a protocol or global actor change. Revert and handle isolation at the local conformance site to contain the blast radius."

/-- Function parse_diff_for_violations from xcode-distill.py. -/
def parse_diff_for_violations (diff_text : Str) (max_files : Nat) :
    List LintViolation × Option Str :=
  let st := (splitlines diff_text).foldl lintStep lintInit
  (st.violations,
   if max_files < st.changed_files.length then
     some (blastMsg st.changed_files.length max_files)
   else none)

/-- One violation entry of the lint JSON payload. -/
structure LintViolationJson where
  file : Str
  line : Nat
  pattern : Str
  severity : Str
  message : Str
deriving DecidableEq

/-- The lint JSON payload. -/
structure LintJsonPayload where
  errors : Nat
  warnings : Nat
  blast_radius_violation : Option Str
  violations : List LintViolationJson
deriving DecidableEq

/-- Serialization of one violation into the lint JSON payload. -/
def lintViolationJson (v : LintViolation) : LintViolationJson :=
  { file := v.file_path
    line := v.line_num
    pattern := v.pattern_name
    severity := v.severity
    message := v.message }

/-- Function format_lint_json from xcode-distill.py (the structured payload
it serializes). -/
def format_lint_json (violations : List LintViolation) (blast_msg : Option Str) :
    LintJsonPayload :=
  { errors := (violations.filter (fun v => decide (v.severity = str "error"))).length
    warnings := (violations.filter (fun v => decide (v.severity = str "warning"))).length
    blast_radius_violation := blast_msg
    violations := violations.map lintViolationJson }

/-- The exit decision of cmd_lint_diff given the diff text: zero for an
(all-whitespace) empty diff, else non-zero exactly when an error-severity
violation or a blast-radius message exists. -/
def cmd_lint_diff_exit (diff_text : Str) (max_files : Nat) : Nat :=
  if (strip diff_text).isEmpty then 0
  else
    let r := parse_diff_for_violations diff_text max_files
    if !(r.1.filter (fun v => decide (v.severity = str "error"))).isEmpty ||
        r.2.isSome then 1
    else 0

/- =====================================================================
Lemmas about the diff scanner
===================================================================== -/

theorem fileHeaderMatch_none (l : Str) (h : isPrefix (str "+++") l = false) :
    fileHeaderMatch l = none := by
  simp [fileHeaderMatch, h]

theorem hunkHeaderMatch_none (l : Str) (h : isPrefix (str "@@") l = false) :
    hunkHeaderMatch l = none := by
  simp [hunkHeaderMatch, h]

theorem head_of_isPrefix_lit (lit l : Str) (hlit : lit ≠ [])
    (h : isPrefix lit l = true) : l.head? = lit.head? := by
  obtain ⟨t, ht⟩ := of_decide_eq_true h
  cases lit with
  | nil => exact absurd rfl hlit
  | cons c cs => rw [← ht]; rfl

theorem fileHeaderMatch_some_prefix (l f : Str) (h : fileHeaderMatch l = some f) :
    isPrefix (str "+++") l = true := by
  by_contra hc
  rw [fileHeaderMatch_none l (Bool.not_eq_true _ ▸ eq_false_of_ne_true hc)] at h
  exact Option.noConfusion h

theorem plusline_no_hunk (l : Str) (h : isPrefix (str "+") l = true) :
    hunkHeaderMatch l = none := by
  apply hunkHeaderMatch_none
  cases hb : isPrefix (str "@@") l
  · rfl
  · exfalso
    have h1 := head_of_isPrefix_lit (str "+") l (by decide) h
    have h2 := head_of_isPrefix_lit (str "@@") l (by decide) hb
    rw [h1] at h2
    exact absurd h2 (by decide)

theorem no_prefix_of_ws (lit : Str) (c0 : Char) (h0 : lit.head? = some c0)
    (hc : isWsC c0 = false) (l : Str) (hws : ∀ c ∈ l, isWsC c = true) :
    isPrefix lit l = false := by
  cases hp : isPrefix lit l
  · rfl
  · exfalso
    have hne : lit ≠ [] := by
      intro he; rw [he] at h0; exact Option.noConfusion h0
    have hh := head_of_isPrefix_lit lit l hne hp
    cases l with
    | nil => rw [h0] at hh; exact Option.noConfusion hh
    | cons a as =>
      rw [h0] at hh
      have ha : a = c0 := by injection hh
      have := hws a (List.mem_cons_self _ _)
      rw [ha, hc] at this
      exact Bool.false_ne_true this

theorem lintStep_changed (s : LintState) (l : Str) :
    (lintStep s l).changed_files =
      match fileHeaderMatch l with
      | some f => insertNew f s.changed_files
      | none => s.changed_files := by
  cases hf : fileHeaderMatch l
  · simp only [lintStep, hf]
    cases hh : hunkHeaderMatch l
    · simp only []
      split
      · rfl
      · split <;> rfl
    · rfl
  · simp only [lintStep, hf]

theorem lintStep_ws (s : LintState) (l : Str) (hws : ∀ c ∈ l, isWsC c = true) :
    (lintStep s l).violations = s.violations ∧
    (lintStep s l).changed_files = s.changed_files := by
  have hplus : isPrefix (str "+") l = false :=
    no_prefix_of_ws _ '+' (by decide) (by decide) l hws
  have hplus3 : isPrefix (str "+++") l = false :=
    no_prefix_of_ws _ '+' (by decide) (by decide) l hws
  have hat : isPrefix (str "@@") l = false :=
    no_prefix_of_ws _ '@' (by decide) (by decide) l hws
  refine ⟨?_, ?_⟩ <;>
    simp [lintStep, fileHeaderMatch_none l hplus3, hunkHeaderMatch_none l hat, hplus]

theorem lintFold_ws (ls : List Str) (hws : ∀ l ∈ ls, ∀ c ∈ l, isWsC c = true) :
    ∀ s : LintState,
      (ls.foldl lintStep s).violations = s.violations ∧
      (ls.foldl lintStep s).changed_files = s.changed_files := by
  induction ls with
  | nil => intro s; exact ⟨rfl, rfl⟩
  | cons l ls ih =>
    intro s
    rw [List.foldl_cons]
    have hl := lintStep_ws s l (hws l (List.mem_cons_self _ _))
    have hrest := ih (fun l2 hl2 => hws l2 (List.mem_cons_of_mem _ hl2)) (lintStep s l)
    exact ⟨hrest.1.trans hl.1, hrest.2.trans hl.2⟩

theorem lintFold_changed (ls : List Str) :
    ∀ s : LintState,
      (ls.foldl lintStep s).changed_files =
        (ls.filterMap fileHeaderMatch).foldl (fun acc f => insertNew f acc)
          s.changed_files := by
  induction ls with
  | nil => intro s; rfl
  | cons l ls ih =>
    intro s
    rw [List.foldl_cons, List.filterMap_cons, ih]
    cases hf : fileHeaderMatch l
    · rw [lintStep_changed, hf]
    · rw [lintStep_changed, hf, List.foldl_cons]

theorem strip_empty_ws (d : Str) (h : (strip d).isEmpty = true) :
    ∀ c ∈ d, isWsC c = true := by
  intro c hc
  have hnil : strip d = [] := by
    cases hs : strip d
    · rfl
    · rw [hs] at h; exact absurd h (by simp)
  have hdrop : d.dropWhile isWsC = [] := by
    rw [strip] at hnil
    have h2 : (d.dropWhile isWsC).reverse.dropWhile isWsC = [] := by
      cases hcase : (d.dropWhile isWsC).reverse.dropWhile isWsC
      · rfl
      · rw [hcase] at hnil; simp at hnil
    cases hcase : d.dropWhile isWsC
    · rfl
    · exfalso
      rename_i a as
      have hhead : ¬ isWsC a = true := by
        have := List.head?_dropWhile_not isWsC d
        rw [hcase] at this
        simpa using this
      have hmem : a ∈ (d.dropWhile isWsC).reverse := by
        rw [hcase]; simp
      have := List.dropWhile_eq_nil_iff.mp h2 a hmem
      exact hhead this
  have := List.dropWhile_eq_nil_iff.mp hdrop c hc
  exact this

theorem mem_joinWith (ch : Char) :
    ∀ (parts : List Str) (p : Str), p ∈ parts → ∀ c ∈ p, c ∈ joinWith ch parts := by
  intro parts
  induction parts with
  | nil => intro p hp; simp at hp
  | cons s ss ih =>
    intro p hp c hc
    rcases List.mem_cons.mp hp with h | h
    · subst h
      cases ss with
      | nil => exact hc
      | cons s2 ss2 => exact List.mem_append_left _ hc
    · cases ss with
      | nil => simp at h
      | cons s2 ss2 =>
        have := ih p h c hc
        exact List.mem_append_right _ (List.mem_cons_of_mem _ this)

theorem mem_splitlines_subset (d l : Str) (hl : l ∈ splitlines d) :
    ∀ c ∈ l, c ∈ d := by
  intro c hc
  rw [splitlines] at hl
  split at hl
  · simp at hl
  · have hparts : l ∈ splitOnChar '\n' d := by
      split at hl
      · exact (List.dropLast_sublist _).mem hl
      · exact hl
    have := mem_joinWith '\n' (splitOnChar '\n' d) l hparts c hc
    rwa [joinWith_splitOnChar] at this

theorem parse_diff_ws (d : Str) (hsd : (strip d).isEmpty = true) (maxf : Nat) :
    parse_diff_for_violations d maxf = ([], none) := by
  have hws : ∀ l ∈ splitlines d, ∀ c ∈ l, isWsC c = true :=
    fun l hl c hc => strip_empty_ws d hsd c (mem_splitlines_subset d l hl c hc)
  have h := lintFold_ws (splitlines d) hws lintInit
  simp only [parse_diff_for_violations, h.1, h.2]
  rw [show lintInit.violations = [] from rfl, show lintInit.changed_files = [] from rfl]
  simp

/-- C8.  The diff linter exits non-zero exactly when an error-severity
violation or a blast-radius message exists (warnings alone exit zero); and
any diff whose file headers name more than max_files distinct files yields a
non-empty blast-radius message and a non-zero exit. -/
theorem cmd_lint_diff_exit_iff (diff : Str) (max_files : Nat) :
    (cmd_lint_diff_exit diff max_files ≠ 0 ↔
      ((parse_diff_for_violations diff max_files).1.filter
          (fun v => decide (v.severity = str "error")) ≠ [] ∨
        (parse_diff_for_violations diff max_files).2 ≠ none)) ∧
    (max_files <
        (((splitlines diff).filterMap fileHeaderMatch).foldl
          (fun acc f => insertNew f acc) []).length →
      ∃ m, (parse_diff_for_violations diff max_files).2 = some m ∧ m ≠ [] ∧
        cmd_lint_diff_exit diff max_files = 1) := by
  have hchanged : ((splitlines diff).foldl lintStep lintInit).changed_files =
      ((splitlines diff).filterMap fileHeaderMatch).foldl
        (fun acc f => insertNew f acc) [] :=
    lintFold_changed (splitlines diff) lintInit
  constructor
  · by_cases hstrip : (strip diff).isEmpty = true
    · rw [cmd_lint_diff_exit, if_pos hstrip, parse_diff_ws diff hstrip]
      simp
    · simp only [cmd_lint_diff_exit]
      rw [if_neg hstrip]
      constructor
      · intro hne
        by_contra hcon
        push_neg at hcon
        rw [hcon.1] at hne
        simp only [List.isEmpty_nil, Bool.not_true, hcon.2, Option.isSome_none,
          Bool.or_self, Bool.false_or] at hne
        exact hne rfl
      · intro hor
        rcases hor with h | h
        · have : ((parse_diff_for_violations diff max_files).1.filter
              (fun v => decide (v.severity = str "error"))).isEmpty = false := by
            cases hcase : ((parse_diff_for_violations diff max_files).1.filter
                (fun v => decide (v.severity = str "error"))).isEmpty
            · rfl
            · exact absurd (List.isEmpty_iff.mp hcase) h
          rw [this]
          simp
        · have : (parse_diff_for_violations diff max_files).2.isSome = true := by
            cases hcase : (parse_diff_for_violations diff max_files).2
            · exact absurd hcase h
            · rfl
          rw [this]
          simp
  · intro hcount
    have hblast : (parse_diff_for_violations diff max_files).2 =
        some (blastMsg ((splitlines diff).foldl lintStep lintInit).changed_files.length
          max_files) := by
      simp only [parse_diff_for_violations]
      rw [if_pos (by rw [hchanged]; exact hcount)]
    have hmne : blastMsg ((splitlines diff).foldl lintStep lintInit).changed_files.length
        max_files ≠ [] := by
      intro hcon
      have hlen := congrArg List.length hcon
      rw [blastMsg] at hlen
      simp only [List.length_append, List.length_nil] at hlen
      have hpos : 0 < (str "Scope Violation: Your concurrency changes modified ").length := by
        decide
      omega
    have hstrip : (strip diff).isEmpty = false := by
      cases hs : (strip diff).isEmpty
      · rfl
      · exfalso
        have := parse_diff_ws diff hs max_files
        rw [this] at hblast
        exact Option.noConfusion hblast
    refine ⟨_, hblast, hmne, ?_⟩
    simp only [cmd_lint_diff_exit]
    rw [if_neg (by rw [hstrip]; simp)]
    have : (parse_diff_for_violations diff max_files).2.isSome = true := by
      rw [hblast]; rfl
    rw [this]
    simp

/-- The concrete 16-file diff of the C8 witness. -/
def c8diff : Str :=
  str "+++ b/F0.swift\n+++ b/F1.swift\n+++ b/F2.swift\n+++ b/F3.swift\n+++ b/F4.swift\n+++ b/F5.swift\n+++ b/F6.swift\n+++ b/F7.swift\n+++ b/F8.swift\n+++ b/F9.swift\n+++ b/F10.swift\n+++ b/F11.swift\n+++ b/F12.swift\n+++ b/F13.swift\n+++ b/F14.swift\n+++ b/F15.swift"

set_option maxRecDepth 100000 in
/-- Witness for C8: a 16-file diff with no per-line violation produces a
non-empty blast-radius message and a non-zero exit at the default cap. -/
theorem cmd_lint_diff_exit_iff_witness :
    ∃ m, (parse_diff_for_violations c8diff 15).2 = some m ∧ m ≠ [] ∧
      cmd_lint_diff_exit c8diff 15 = 1 :=
  (cmd_lint_diff_exit_iff c8diff 15).2 (by decide)

theorem lintStep_added (s : LintState) (line : Str)
    (hadd : isPrefix (str "+") line = true)
    (hadd3 : isPrefix (str "+++") line = false)
    (hcomment : (isPrefix (str "//") (strip (line.drop 1)) ||
      isPrefix (str "/*") (strip (line.drop 1)) ||
      isPrefix (str "*") (strip (line.drop 1))) = false) :
    (lintStep s line).violations = s.violations ++
      lintLineViolations s.current_file (s.current_line + 1) s.prev_line
        (line.drop 1) ∧
    (lintStep s line).prev_line = line := by
  have hfile := fileHeaderMatch_none line hadd3
  have hhunk := plusline_no_hunk line hadd
  simp only [lintStep, hfile, hhunk, hadd, hadd3, Bool.not_true, Bool.false_or,
    Bool.false_eq_true, if_false]
  rw [if_neg (by rw [hcomment]; simp)]
  exact ⟨rfl, rfl⟩

theorem filter_filterMap_nil {β : Type} (p : β → Bool) (f : α → Option β)
    (l : List α) (h : ∀ x ∈ l, ∀ r, f x = some r → p r = false) :
    (l.filterMap f).filter p = [] := by
  induction l with
  | nil => rfl
  | cons x xs ih =>
    rw [List.filterMap_cons]
    cases hf : f x
    · exact ih (fun y hy => h y (List.mem_cons_of_mem _ hy))
    · rename_i r
      rw [List.filter_cons_of_neg (by simp [h x (List.mem_cons_self _ _) r hf])]
      exact ih (fun y hy => h y (List.mem_cons_of_mem _ hy))

theorem length_filterMap_guard {β : Type} (l : List α) (q : α → Bool)
    (g : α → β) :
    (l.filterMap (fun x => if q x then some (g x) else none)).length =
      l.countP q := by
  induction l with
  | nil => rfl
  | cons x xs ih =>
    rw [List.filterMap_cons, List.countP_cons]
    cases hq : q x <;> simp [hq, ih]

/-- C6 (amended).  For an added non-comment line matching the conditional
pattern, the scanner appends exactly the line's rule-table violations; among
them the conditional-pattern violations are empty when the immediately
preceding diff line is a justification comment, and exactly one error with
the augmented message otherwise.  The preceding-line state is RESET at every
hunk header (and file header), so a justification comment that ends one hunk
does not suppress a match at the start of the next hunk. -/
theorem lint_conditional_requires_adjacent_justification (s : LintState)
    (line : Str)
    (hadd : isPrefix (str "+") line = true)
    (hadd3 : isPrefix (str "+++") line = false)
    (hcomment : (isPrefix (str "//") (strip (line.drop 1)) ||
      isPrefix (str "/*") (strip (line.drop 1)) ||
      isPrefix (str "*") (strip (line.drop 1))) = false)
    (hmatch : nonisolatedUnsafeMatch (line.drop 1) = true) :
    ((lintStep s line).violations = s.violations ++
      lintLineViolations s.current_file (s.current_line + 1) s.prev_line
        (line.drop 1)) ∧
    ((lintLineViolations s.current_file (s.current_line + 1) s.prev_line
        (line.drop 1)).filter
        (fun v => decide (v.pattern_name = str "nonisolated(unsafe)")) =
      if hasJustification s.prev_line then []
      else
        [{ file_path := s.current_file
           line_num := s.current_line + 1
           pattern_name := str "nonisolated(unsafe)"
           severity := str "error"
           message := str "Missing justification comment. Requires a justification comment on the preceding line. Allowed for `static let` singletons with thread-safe initialization."
           diff_line := strip (line.drop 1) }]) ∧
    (∀ lh : Str, ∀ n : Nat, hunkHeaderMatch lh = some n →
      (lintStep s lh).prev_line = []) := by
  refine ⟨(lintStep_added s line hadd hadd3 hcomment).1, ?_, ?_⟩
  · rw [lintLineViolations, List.filter_append, List.filter_append]
    have hforb : ((FORBIDDEN_PATTERNS.filterMap fun p =>
        if p.1 (line.drop 1) then
          some ({ file_path := s.current_file
                  line_num := s.current_line + 1
                  pattern_name := p.2.1
                  severity := str "error"
                  message := p.2.2
                  diff_line := strip (line.drop 1) } : LintViolation)
        else none).filter
          (fun v : LintViolation =>
            decide (v.pattern_name = str "nonisolated(unsafe)"))) = [] := by
      have hnames : ∀ x ∈ FORBIDDEN_PATTERNS,
          decide (x.2.1 = str "nonisolated(unsafe)") = false := by decide
      apply filter_filterMap_nil
      intro x hx r hr
      revert hr
      split
      · intro hr
        have hrr := Option.some.inj hr
        rw [← hrr]
        exact hnames x hx
      · intro hr
        exact absurd hr (by simp)
    have hwarn : ((WARN_PATTERNS.filterMap fun p =>
        if p.1 (line.drop 1) then
          some ({ file_path := s.current_file
                  line_num := s.current_line + 1
                  pattern_name := p.2.1
                  severity := str "warning"
                  message := p.2.2
                  diff_line := strip (line.drop 1) } : LintViolation)
        else none).filter
          (fun v : LintViolation =>
            decide (v.pattern_name = str "nonisolated(unsafe)"))) = [] := by
      have hnames : ∀ x ∈ WARN_PATTERNS,
          decide (x.2.1 = str "nonisolated(unsafe)") = false := by decide
      apply filter_filterMap_nil
      intro x hx r hr
      revert hr
      split
      · intro hr
        have hrr := Option.some.inj hr
        rw [← hrr]
        exact hnames x hx
      · intro hr
        exact absurd hr (by simp)
    rw [hforb, hwarn, List.nil_append, List.append_nil]
    simp only [CONDITIONAL_PATTERNS, List.filterMap_cons, List.filterMap_nil, hmatch,
      if_true]
    cases hj : hasJustification s.prev_line
    · simp only [Bool.false_eq_true, if_false]
      rfl
    · simp only [if_true]
      rfl
  · intro lh n hh
    have hf : fileHeaderMatch lh = none := by
      apply fileHeaderMatch_none
      cases hb : isPrefix (str "+++") lh
      · rfl
      · exfalso
        have h1 := head_of_isPrefix_lit (str "+++") lh (by decide) hb
        have hat : isPrefix (str "@@") lh = true := by
          cases hb2 : isPrefix (str "@@") lh
          · rw [hunkHeaderMatch_none lh hb2] at hh
            exact Option.noConfusion hh
          · rfl
        have h2 := head_of_isPrefix_lit (str "@@") lh (by decide) hat
        rw [h1] at h2
        exact absurd h2 (by decide)
    simp only [lintStep, hf, hh]

/-- The scanner state of the C6 witness: inside a hunk of A.swift whose
previous emitted line is a justification comment. -/
def c6state : LintState :=
  { violations := []
    current_file := str "A.swift"
    current_line := 2
    changed_files := [str "A.swift"]
    prev_line := str "+// justification: safe singleton" }

/-- Witness for C6 at a concrete state and added line: the justification
comment on the preceding line suppresses the conditional violation. -/
theorem lint_conditional_requires_adjacent_justification_witness :
    ((lintLineViolations c6state.current_file (c6state.current_line + 1)
        c6state.prev_line
        ((str "+nonisolated(unsafe) let x = makeX()").drop 1)).filter
        (fun v => decide (v.pattern_name = str "nonisolated(unsafe)")) =
      if hasJustification c6state.prev_line then []
      else
        [{ file_path := c6state.current_file
           line_num := c6state.current_line + 1
           pattern_name := str "nonisolated(unsafe)"
           severity := str "error"
           message := str "Missing justification comment. Requires a justification comment on the preceding line. Allowed for `static let` singletons with thread-safe initialization."
           diff_line := strip ((str "+nonisolated(unsafe) let x = makeX()").drop 1) }]) ∧
    hasJustification c6state.prev_line = true :=
  ⟨(lint_conditional_requires_adjacent_justification c6state
      (str "+nonisolated(unsafe) let x = makeX()")
      (by decide) (by decide) (by decide) (by decide)).2.1,
   by decide⟩

/-- Counterexample for C6: the previous-line state is reset at hunk headers,
so a justification comment that is the last line of one hunk does not
suppress a conditional match on the first added line of the next hunk of the
same file — the scanner still produces the error violation, contradicting
the claimed hunk-boundary independence. -/
theorem lint_justification_not_cross_hunk :
    ((parse_diff_for_violations
        (str "+++ b/A.swift\n@@ -1,1 +1,2 @@\n+let a = 1\n+// justification: thread-safe init\n@@ -10,1 +10,2 @@\n+nonisolated(unsafe) let y = Y()")
        15).1.map (fun v => (v.pattern_name, v.severity))) =
      [(str "nonisolated(unsafe)", str "error")] ∧
    hasJustification (str "+// justification: thread-safe init") = true := by
  exact ⟨by decide, by decide⟩

/-- C10 (amended).  The three rule tables are applied independently to every
added non-comment line: the number of violations it produces equals the
number of matching forbidden patterns, plus the number of matching warning
patterns, plus the number of matching conditional patterns EXCEPT that a
conditional match is suppressed entirely (contributes zero) when the
preceding diff line is a justification comment; every produced violation
carries the current file and the same line number. -/
theorem lint_rule_tables_additive (s : LintState) (line : Str)
    (hadd : isPrefix (str "+") line = true)
    (hadd3 : isPrefix (str "+++") line = false)
    (hcomment : (isPrefix (str "//") (strip (line.drop 1)) ||
      isPrefix (str "/*") (strip (line.drop 1)) ||
      isPrefix (str "*") (strip (line.drop 1))) = false) :
    ((lintStep s line).violations = s.violations ++
      lintLineViolations s.current_file (s.current_line + 1) s.prev_line
        (line.drop 1)) ∧
    (∀ (f : Str) (n : Nat) (prev added : Str),
      (lintLineViolations f n prev added).length =
        FORBIDDEN_PATTERNS.countP (fun p => p.1 added) +
        (if hasJustification prev then 0
         else CONDITIONAL_PATTERNS.countP (fun p => p.1 added)) +
        WARN_PATTERNS.countP (fun p => p.1 added)) ∧
    (∀ (f : Str) (n : Nat) (prev added : Str),
      ∀ v ∈ lintLineViolations f n prev added,
        v.file_path = f ∧ v.line_num = n) := by
  refine ⟨(lintStep_added s line hadd hadd3 hcomment).1, ?_, ?_⟩
  · intro f n prev added
    rw [lintLineViolations, List.length_append, List.length_append]
    rw [length_filterMap_guard FORBIDDEN_PATTERNS (fun p => p.1 added)]
    rw [length_filterMap_guard WARN_PATTERNS (fun p => p.1 added)]
    cases hj : hasJustification prev <;>
      cases hm : nonisolatedUnsafeMatch added <;>
        simp only [CONDITIONAL_PATTERNS, List.filterMap_cons, List.filterMap_nil,
          hm, hj, List.countP_cons, List.countP_nil, if_true, if_false,
          Bool.false_eq_true, List.length_cons, List.length_nil,
          decide_eq_true_eq]
  · intro f n prev added v hv
    rw [lintLineViolations] at hv
    rcases List.mem_append.mp hv with h | h
    · rcases List.mem_append.mp h with h2 | h2
      · obtain ⟨x, _, hfx⟩ := List.mem_filterMap.mp h2
        revert hfx
        split
        · intro hfx
          have := Option.some.inj hfx
          rw [← this]
          exact ⟨rfl, rfl⟩
        · intro hfx
          exact absurd hfx (by simp)
      · obtain ⟨x, _, hfx⟩ := List.mem_filterMap.mp h2
        revert hfx
        split
        · split
          · intro hfx
            exact absurd hfx (by simp)
          · intro hfx
            have := Option.some.inj hfx
            rw [← this]
            exact ⟨rfl, rfl⟩
        · intro hfx
          exact absurd hfx (by simp)
    · obtain ⟨x, _, hfx⟩ := List.mem_filterMap.mp h
      revert hfx
      split
      · intro hfx
        have := Option.some.inj hfx
        rw [← this]
        exact ⟨rfl, rfl⟩
      · intro hfx
        exact absurd hfx (by simp)

/-- The scanner state of the C10 witness. -/
def c10state : LintState :=
  { violations := []
    current_file := str "A.swift"
    current_line := 1
    changed_files := [str "A.swift"]
    prev_line := str " let ctx = 0" }

/-- Witness for C10: an added line containing both an unchecked-Sendable
cast and a semaphore construction yields exactly two error violations at the
same file and line. -/
theorem lint_rule_tables_additive_witness :
    ((lintStep c10state
        (str "+let s = DispatchSemaphore(0) // @unchecked Sendable")).violations =
      c10state.violations ++
        lintLineViolations c10state.current_file (c10state.current_line + 1)
          c10state.prev_line
          ((str "+let s = DispatchSemaphore(0) // @unchecked Sendable").drop 1)) ∧
    (lintLineViolations c10state.current_file (c10state.current_line + 1)
        c10state.prev_line
        ((str "+let s = DispatchSemaphore(0) // @unchecked Sendable").drop 1)).length =
      FORBIDDEN_PATTERNS.countP
        (fun p => p.1 ((str "+let s = DispatchSemaphore(0) // @unchecked Sendable").drop 1)) +
      (if hasJustification c10state.prev_line then 0
       else CONDITIONAL_PATTERNS.countP
        (fun p => p.1 ((str "+let s = DispatchSemaphore(0) // @unchecked Sendable").drop 1))) +
      WARN_PATTERNS.countP
        (fun p => p.1 ((str "+let s = DispatchSemaphore(0) // @unchecked Sendable").drop 1)) ∧
    FORBIDDEN_PATTERNS.countP
        (fun p => p.1 ((str "+let s = DispatchSemaphore(0) // @unchecked Sendable").drop 1)) = 2 :=
  ⟨(lint_rule_tables_additive c10state
      (str "+let s = DispatchSemaphore(0) // @unchecked Sendable")
      (by decide) (by decide) (by decide)).1,
   (lint_rule_tables_additive c10state
      (str "+let s = DispatchSemaphore(0) // @unchecked Sendable")
      (by decide) (by decide) (by decide)).2.1 c10state.current_file
      (c10state.current_line + 1) c10state.prev_line _,
   by decide⟩

/-- Counterexample for C10: an added line matching two patterns (the
conditional nonisolated-unsafe pattern and the forbidden assumeIsolated
pattern) preceded by a justification comment produces one violation, not
two — conditional matches suppressed by a justification contribute no
violation. -/
theorem lint_rule_tables_not_always_k :
    ((parse_diff_for_violations
        (str "+++ b/A.swift\n@@ -1,1 +1,2 @@\n+// justification: singleton\n+nonisolated(unsafe) let x = y.assumeIsolated")
        15).1.map (fun v => v.pattern_name)) = [str ".assumeIsolated"] ∧
    nonisolatedUnsafeMatch (str "nonisolated(unsafe) let x = y.assumeIsolated") = true ∧
    assumeIsolatedMatch (str "nonisolated(unsafe) let x = y.assumeIsolated") = true := by
  exact ⟨by decide, by decide, by decide⟩

/- =====================================================================
Test subcommand: result walker and renderers (_walk_test_results,
format_test_markdown, format_test_json)
===================================================================== -/

/-- The TestFailure dataclass from xcode-distill.py (durations, which are
floats in the source, are modelled over the integers; only truthiness and
rendering of the value matter to the claims). -/
structure TestFailure where
  test_class : Str
  test_method : Str
  message : Str
  file_path : Str
  line : Nat
  duration : Option Int
deriving DecidableEq

/-- The tree of mappings and lists of the structured test-result document. -/
inductive J where
  | null
  | bool (b : Bool)
  | num (n : Int)
  | s (v : Str)
  | arr (items : List J)
  | obj (fields : List (Str × J))

/-- First value bound to a key in an object's field list (dict access). -/
def jGet : List (Str × J) → Str → Option J
  | [], _ => none
  | (k, v) :: rest, key => if k = key then some v else jGet rest key

/-- Defensive object access: the field list of an object value, or empty
(models the dict.get(k, default-dict) idiom, defensively per spec 4.4). -/
def jObjD : Option J → List (Str × J)
  | some (.obj fs) => fs
  | _ => []

/-- Defensive string access: the string bound to a key, or empty. -/
def jStrD (fields : List (Str × J)) (key : Str) : Str :=
  match jGet fields key with
  | some (.s v) => v
  | _ => []

/-- Python identifier.rsplit("/", 1) shaped as (class part, method part):
the class part is empty when there is no slash. -/
def rsplitSlash (ident : Str) : Str × Str :=
  let parts := splitOnChar '/' ident
  if parts.length ≤ 1 then ([], ident)
  else (joinWith '/' parts.dropLast, parts.getLastD [])

/-- Python url.replace("file://", ""): remove every occurrence of the
scheme prefix, scanning left to right. -/
def removeFileScheme (s : Str) : Str :=
  match s with
  | [] => []
  | c :: rest =>
    if isPrefix (str "file://") (c :: rest) then
      removeFileScheme ((c :: rest).drop 7)
    else c :: removeFileScheme rest
termination_by s.length
decreasing_by
  · simp only [List.length_drop, List.length_cons]
    omega
  · simp only [List.length_cons]
    omega

/-- The per-node failure extraction of _walk_test_results: when the node is
a failing test summary, build one TestFailure (message capped at 200
characters, location parsed from the document URL and relativized). -/
def extractOwnFailure (fields : List (Str × J)) (source_root : Option Str) :
    List TestFailure :=
  let node_type := jStrD (jObjD (jGet fields (str "_type"))) (str "_name")
  if node_type = str "ActionTestMetadata" ∨ node_type = str "ActionTestSummary" then
    let status := jStrD (jObjD (jGet fields (str "testStatus"))) (str "_value")
    if status = str "Failure" then
      let identifier := jStrD (jObjD (jGet fields (str "identifier"))) (str "_value")
      let parts := rsplitSlash identifier
      let fsums :=
        match jGet fields (str "failureSummaries") with
        | some (.obj fs2) =>
          match jGet fs2 (str "_values") with
          | some (.arr l) => l
          | _ => []
        | _ => []
      let mfl :=
        match fsums with
        | [] => (([] : Str), ([] : Str), (0 : Nat))
        | first :: _ =>
          let ffields := match first with | .obj fs3 => fs3 | _ => []
          let message := jStrD (jObjD (jGet ffields (str "message"))) (str "_value")
          let loc := jObjD (jGet ffields (str "documentLocationInCreatingWorkspace"))
          let url := jStrD (jObjD (jGet loc (str "url"))) (str "_value")
          if url.isEmpty then (message, ([] : Str), (0 : Nat))
          else
            let file_path :=
              relativize_path (removeFileScheme ((splitOnChar '#' url).headD []))
                source_root
            let fragment :=
              if '#' ∈ url then (splitOnChar '#' url).getLastD [] else []
            let line :=
              match searchLitDigits (str "StartingLineNumber=") fragment with
              | some ds => natOfDigits ds
              | none => 0
            (message, file_path, line)
      let duration :=
        match jGet fields (str "duration") with
        | some (.obj dfs) =>
          match jGet dfs (str "_value") with
          | some (.num v) => if v = 0 then none else some v
          | _ => none
        | _ => none
      [{ test_class := parts.1
         test_method := parts.2
         message := mfl.1.take 200
         file_path := mfl.2.1
         line := mfl.2.2
         duration := duration }]
    else []
  else []

mutual

/-- Function _walk_test_results from xcode-distill.py: recursively walk the
document, appending the node's own failure (when it is a failing test) and
the failures found in its children. -/
def _walk_test_results (node : J) (source_root : Option Str) : List TestFailure :=
  match node with
  | .obj fields => extractOwnFailure fields source_root ++ walkFields fields source_root
  | _ => []
termination_by (sizeOf node, 0)

/-- Walk every field value of an object node. -/
def walkFields (fields : List (Str × J)) (source_root : Option Str) :
    List TestFailure :=
  match fields with
  | [] => []
  | (_, v) :: rest => walkVal v source_root ++ walkFields rest source_root
termination_by (sizeOf fields, 0)

/-- Walk one field value: a dict is recursed into (and additionally its
"_values" list is walked again, duplicating those failures, as the source
does); a list's dict items are recursed into. -/
def walkVal (v : J) (source_root : Option Str) : List TestFailure :=
  match v with
  | .obj fs => _walk_test_results (.obj fs) source_root ++ walkValuesKey fs source_root
  | .arr items => walkItems items source_root
  | _ => []
termination_by (sizeOf v, 1)

/-- The extra "_values" walk of a dict-valued field. -/
def walkValuesKey (fs : List (Str × J)) (source_root : Option Str) :
    List TestFailure :=
  match fs with
  | [] => []
  | (k, v) :: rest =>
    if k = str "_values" then walkArrItems v source_root
    else walkValuesKey rest source_root
termination_by (sizeOf fs, 0)

/-- Walk a "_values" value when it is a list (non-lists contribute
nothing). -/
def walkArrItems (v : J) (source_root : Option Str) : List TestFailure :=
  match v with
  | .arr items => walkItems items source_root
  | _ => []
termination_by (sizeOf v, 1)

/-- Walk the dict items of a list value. -/
def walkItems (items : List J) (source_root : Option Str) : List TestFailure :=
  match items with
  | [] => []
  | it :: rest => walkObjOnly it source_root ++ walkItems rest source_root
termination_by (sizeOf items, 0)

/-- Walk one list item when it is a dict (non-dicts contribute nothing). -/
def walkObjOnly (it : J) (source_root : Option Str) : List TestFailure :=
  match it with
  | .obj fs => _walk_test_results (.obj fs) source_root
  | _ => []
termination_by (sizeOf it, 1)

end

/-- The duration suffix of a test-failure item line (empty for a falsy
duration; integral durations render with one decimal place). -/
def durStr : Option Int → Str
  | none => []
  | some d => if d = 0 then [] else str " (" ++ intStr d ++ str ".0s)"

/-- The location suffix of a test-failure item line. -/
def locStr (f : TestFailure) : Str :=
  if f.file_path.isEmpty then []
  else str " — `" ++ f.file_path ++ str ":" ++ natStr f.line ++ str "`"

/-- The headline of one rendered test failure. -/
def failItemLine (f : TestFailure) : Str :=
  str "- **" ++ f.test_method ++ str "**" ++ durStr f.duration ++ locStr f

/-- The rendered (newline-flattened, stripped) failure message. -/
def renderMsg (f : TestFailure) : Str :=
  strip (f.message.map (fun c => if c = '\n' then ' ' else c))

/-- The group-rendering parameters of the test Markdown report: groups are
keyed by test class, items stay in traversal order, and each failure emits
its headline plus an optional indented message line. -/
def testCfg : GroupRenderCfg TestFailure where
  mkHeader := fun cls g =>
    str "### " ++ cls ++ str " (" ++ natStr g.length ++ str " failures)\n"
  mkItems := fun g => g
  mkItem := fun f =>
    failItemLine f :: (if f.message.isEmpty then [] else [str "  > " ++ renderMsg f])
  mkNote := fun remaining =>
    str "\n_(" ++ natStr remaining ++ str " more failures not shown)_\n"

/-- Function format_test_markdown from xcode-distill.py, as the list of
lines joined with newlines into the final string. -/
def format_test_markdown_lines (failures : List TestFailure) (max_issues : Nat)
    (attempt : Nat) : List Str :=
  if failures.isEmpty then [str "## Test Result: ✅ All tests passed\n"]
  else
    let header := str "## Test Result: " ++ natStr failures.length ++ str " failures\n"
    let groups := stableSort (fun a b => decide (b.2.length ≤ a.2.length))
      (groupByKey
        (fun f => if f.test_class.isEmpty then str "(unknown)" else f.test_class)
        failures)
    let body := (renderGroupsCapped testCfg max_issues failures.length groups 0).1
    let cb := format_circuit_breaker attempt
    header :: (body ++ (if cb.isEmpty then [] else [cb]))

/-- One failure entry of the test JSON payload. -/
structure TestFailureJson where
  cls : Str
  method : Str
  message : Str
  file : Str
  line : Nat
deriving DecidableEq

/-- The test JSON payload. -/
structure TestJsonPayload where
  total_failures : Nat
  attempt : Nat
  circuit_breaker : Bool
  failures : List TestFailureJson
deriving DecidableEq

/-- Serialization of one failure into the test JSON payload. -/
def testFailureJson (f : TestFailure) : TestFailureJson :=
  { cls := f.test_class
    method := f.test_method
    message := f.message
    file := f.file_path
    line := f.line }

/-- Function format_test_json from xcode-distill.py (the structured payload
it serializes). -/
def format_test_json (failures : List TestFailure) (attempt : Nat) :
    TestJsonPayload :=
  { total_failures := failures.length
    attempt := attempt
    circuit_breaker := decide (3 ≤ attempt)
    failures := failures.map testFailureJson }

/- =====================================================================
Lemmas for claim C4 (truncation bounds)
===================================================================== -/

theorem stableSort_length (le : α → α → Bool) :
    ∀ l : List α, (stableSort le l).length = l.length := by
  intro l
  induction l with
  | nil => rfl
  | cons x xs ih =>
    obtain ⟨l1, l2, he, hi, _⟩ := stableInsert_decomp le x (stableSort le xs)
    have h1 : l1.length + l2.length = xs.length := by
      have h2 := congrArg List.length he
      rw [List.length_append, ih] at h2
      omega
    show (stableInsert le x (stableSort le xs)).length = _
    rw [hi]
    simp only [List.length_append, List.length_cons]
    omega

theorem strip_length_le (s : Str) : (strip s).length ≤ s.length := by
  rw [strip]
  calc ((s.dropWhile isWsC).reverse.dropWhile isWsC).reverse.length
      = ((s.dropWhile isWsC).reverse.dropWhile isWsC).length := List.length_reverse _
    _ ≤ (s.dropWhile isWsC).reverse.length :=
        (List.dropWhile_sublist _).length_le
    _ = (s.dropWhile isWsC).length := List.length_reverse _
    _ ≤ s.length := (List.dropWhile_sublist _).length_le

theorem extractOwnFailure_msg (fields : List (Str × J)) (root : Option Str) :
    ∀ f ∈ extractOwnFailure fields root, f.message.length ≤ 200 := by
  intro f hf
  simp only [extractOwnFailure] at hf
  split at hf
  · split at hf
    · simp only [List.mem_singleton] at hf
      subst hf
      simp only [List.length_take]
      omega
    · simp at hf
  · simp at hf

theorem walk_msg_bound : ∀ (n : Nat),
    (∀ (node : J) (root : Option Str), sizeOf node ≤ n →
      ∀ f ∈ _walk_test_results node root, f.message.length ≤ 200) ∧
    (∀ (fields : List (Str × J)) (root : Option Str), sizeOf fields ≤ n →
      ∀ f ∈ walkFields fields root, f.message.length ≤ 200) ∧
    (∀ (v : J) (root : Option Str), sizeOf v ≤ n →
      ∀ f ∈ walkVal v root, f.message.length ≤ 200) ∧
    (∀ (fs : List (Str × J)) (root : Option Str), sizeOf fs ≤ n →
      ∀ f ∈ walkValuesKey fs root, f.message.length ≤ 200) ∧
    (∀ (items : List J) (root : Option Str), sizeOf items ≤ n →
      ∀ f ∈ walkItems items root, f.message.length ≤ 200) := by
  intro n
  induction n using Nat.strong_induction_on with
  | _ n IH =>
    have hA : ∀ (node : J) (root : Option Str), sizeOf node ≤ n →
        ∀ f ∈ _walk_test_results node root, f.message.length ≤ 200 := by
      intro node root hn f hf
      cases node with
      | obj fields =>
        simp only [_walk_test_results] at hf
        rcases List.mem_append.mp hf with h | h
        · exact extractOwnFailure_msg fields root f h
        · have hsz : sizeOf fields < n := by
            simp only [J.obj.sizeOf_spec] at hn
            omega
          exact (IH (sizeOf fields) hsz).2.1 fields root le_rfl f h
      | null => simp [_walk_test_results] at hf
      | bool b => simp [_walk_test_results] at hf
      | num m => simp [_walk_test_results] at hf
      | s v => simp [_walk_test_results] at hf
      | arr items => simp [_walk_test_results] at hf
    have hB : ∀ (fields : List (Str × J)) (root : Option Str), sizeOf fields ≤ n →
        ∀ f ∈ walkFields fields root, f.message.length ≤ 200 := by
      intro fields root hn f hf
      cases fields with
      | nil => simp [walkFields] at hf
      | cons kv rest =>
        obtain ⟨k, v⟩ := kv
        simp only [walkFields] at hf
        rcases List.mem_append.mp hf with h | h
        · have hsz : sizeOf v < n := by
            simp only [List.cons.sizeOf_spec, Prod.mk.sizeOf_spec] at hn
            omega
          exact (IH (sizeOf v) hsz).2.2.1 v root le_rfl f h
        · have hsz : sizeOf rest < n := by
            simp only [List.cons.sizeOf_spec, Prod.mk.sizeOf_spec] at hn
            omega
          exact (IH (sizeOf rest) hsz).2.1 rest root le_rfl f h
    have hC : ∀ (v : J) (root : Option Str), sizeOf v ≤ n →
        ∀ f ∈ walkVal v root, f.message.length ≤ 200 := by
      intro v root hn f hf
      cases v with
      | obj fs =>
        simp only [walkVal] at hf
        rcases List.mem_append.mp hf with h | h
        · exact hA (.obj fs) root hn f h
        · have hsz : sizeOf fs < n := by
            simp only [J.obj.sizeOf_spec] at hn
            omega
          exact (IH (sizeOf fs) hsz).2.2.2.1 fs root le_rfl f h
      | arr items =>
        simp only [walkVal] at hf
        have hsz : sizeOf items < n := by
          simp only [J.arr.sizeOf_spec] at hn
          omega
        exact (IH (sizeOf items) hsz).2.2.2.2 items root le_rfl f hf
      | null => simp [walkVal] at hf
      | bool b => simp [walkVal] at hf
      | num m => simp [walkVal] at hf
      | s sv => simp [walkVal] at hf
    have hD : ∀ (fs : List (Str × J)) (root : Option Str), sizeOf fs ≤ n →
        ∀ f ∈ walkValuesKey fs root, f.message.length ≤ 200 := by
      intro fs root hn f hf
      cases fs with
      | nil => simp [walkValuesKey] at hf
      | cons kv rest =>
        obtain ⟨k, v⟩ := kv
        by_cases hk : k = str "_values"
        · simp only [walkValuesKey, if_pos hk] at hf
          cases v with
          | arr items =>
            simp only [walkArrItems] at hf
            have hsz : sizeOf items < n := by
              simp only [List.cons.sizeOf_spec, Prod.mk.sizeOf_spec,
                J.arr.sizeOf_spec] at hn
              omega
            exact (IH (sizeOf items) hsz).2.2.2.2 items root le_rfl f hf
          | null => simp [walkArrItems] at hf
          | bool b => simp [walkArrItems] at hf
          | num m => simp [walkArrItems] at hf
          | s sv => simp [walkArrItems] at hf
          | obj fs2 => simp [walkArrItems] at hf
        · simp only [walkValuesKey, if_neg hk] at hf
          have hsz : sizeOf rest < n := by
            simp only [List.cons.sizeOf_spec, Prod.mk.sizeOf_spec] at hn
            omega
          exact (IH (sizeOf rest) hsz).2.2.2.1 rest root le_rfl f hf
    have hE : ∀ (items : List J) (root : Option Str), sizeOf items ≤ n →
        ∀ f ∈ walkItems items root, f.message.length ≤ 200 := by
      intro items root hn f hf
      cases items with
      | nil => simp [walkItems] at hf
      | cons it rest =>
        simp only [walkItems] at hf
        rcases List.mem_append.mp hf with h | h
        · cases it with
          | obj fs =>
            simp only [walkObjOnly] at h
            have hsz : sizeOf (J.obj fs) < n := by
              simp only [List.cons.sizeOf_spec] at hn
              omega
            exact (IH (sizeOf (J.obj fs)) hsz).1 (.obj fs) root le_rfl f h
          | null => simp [walkObjOnly] at h
          | bool b => simp [walkObjOnly] at h
          | num m => simp [walkObjOnly] at h
          | s sv => simp [walkObjOnly] at h
          | arr its => simp [walkObjOnly] at h
        · have hsz : sizeOf rest < n := by
            simp only [List.cons.sizeOf_spec] at hn
            omega
          exact (IH (sizeOf rest) hsz).2.2.2.2 rest root le_rfl f h
    exact ⟨hA, hB, hC, hD, hE⟩

theorem renderMsg_length_le (f : TestFailure) :
    (renderMsg f).length ≤ f.message.length := by
  rw [renderMsg]
  have h := strip_length_le (f.message.map (fun c => if c = '\n' then ' ' else c))
  rwa [List.length_map] at h

/-- A rendered report line is an item line exactly when it starts with the
three characters "- *": the compile error items and the test failure items
do, and no header, warning, note, blank or circuit-breaker line does. -/
def isItemLineB (l : Str) : Bool := decide (l.take 3 = str "- *")

/-- The error diagnostics of a compile report (the severity filter used by
format_compile_markdown and format_compile_json). -/
def errorsOf (diags : List CompilerDiagnostic) : List CompilerDiagnostic :=
  diags.filter (fun d => decide (d.severity = Sev.error))

/-- The by-file error groups of the compile report, ordered by descending
group size. -/
def compileGroupsOf (diags : List CompilerDiagnostic) :
    List (Str × List CompilerDiagnostic) :=
  stableSort (fun a b => decide (b.2.length ≤ a.2.length))
    (groupByKey (fun d => d.file_path) (errorsOf diags))

/-- The capped group rendering of the compile report: its lines, its final
shown counter, and whether the truncation note was emitted. -/
def compileRenderOf (diags : List CompilerDiagnostic) (maxI : Nat) :
    List Str × Nat × Bool :=
  renderGroupsCapped compileCfg maxI (errorsOf diags).length (compileGroupsOf diags) 0

/-- The by-class failure groups of the test report, ordered by descending
group size. -/
def testGroupsOf (failures : List TestFailure) : List (Str × List TestFailure) :=
  stableSort (fun a b => decide (b.2.length ≤ a.2.length))
    (groupByKey
      (fun f => if f.test_class.isEmpty then str "(unknown)" else f.test_class)
      failures)

/-- The capped group rendering of the test report. -/
def testRenderOf (failures : List TestFailure) (maxI : Nat) :
    List Str × Nat × Bool :=
  renderGroupsCapped testCfg maxI failures.length (testGroupsOf failures) 0

theorem take3_app (a rest : Str) (h : 3 ≤ a.length) :
    (a ++ rest).take 3 = a.take 3 := List.take_append_of_le_length h

theorem isItemLineB_errItem (d : CompilerDiagnostic) :
    isItemLineB (errItemLine d) = true := by
  simp only [isItemLineB, errItemLine, List.append_assoc]
  rw [take3_app _ _ (by decide)]
  decide

theorem isItemLineB_failItem (f : TestFailure) :
    isItemLineB (failItemLine f) = true := by
  simp only [isItemLineB, failItemLine, List.append_assoc]
  rw [take3_app _ _ (by decide)]
  decide

theorem isItemLineB_msgLine (f : TestFailure) :
    isItemLineB (str "  > " ++ renderMsg f) = false := by
  simp only [isItemLineB]
  rw [take3_app _ _ (by decide)]
  decide

theorem isItemLineB_errFileHeader (fp : Str) (n : Nat) :
    isItemLineB (errFileHeader fp n) = false := by
  simp only [isItemLineB, errFileHeader, List.append_assoc]
  rw [take3_app _ _ (by decide)]
  decide

theorem isItemLineB_errTruncNote (n : Nat) :
    isItemLineB (errTruncNote n) = false := by
  simp only [isItemLineB, errTruncNote, List.append_assoc]
  rw [take3_app _ _ (by decide)]
  decide

theorem isItemLineB_compileHeader (ne nw : Nat) (scheme : Option Str) :
    isItemLineB (compileHeader ne nw scheme) = false := by
  simp only [isItemLineB, compileHeader, List.append_assoc]
  rw [take3_app _ _ (by decide)]
  decide

theorem isItemLineB_warnLine (d : CompilerDiagnostic) :
    isItemLineB (warnLine d) = false := by
  simp only [isItemLineB, warnLine, List.append_assoc]
  rw [take3_app _ _ (by decide)]
  decide

theorem isItemLineB_cbBlock (b : Nat) : isItemLineB (cbBlock b) = false := by
  simp only [isItemLineB, cbBlock, List.append_assoc]
  rw [take3_app _ _ (by decide)]
  decide

theorem isItemLineB_fcb (a : Nat) :
    isItemLineB (format_circuit_breaker a) = false := by
  rw [format_circuit_breaker]
  split
  · decide
  · exact isItemLineB_cbBlock a

theorem isItemLineB_testHeader (cls : Str) (n : Nat) :
    isItemLineB (str "### " ++ cls ++ str " (" ++ natStr n ++ str " failures)\n") =
      false := by
  simp only [isItemLineB, List.append_assoc]
  rw [take3_app _ _ (by decide)]
  decide

theorem isItemLineB_testNote (n : Nat) :
    isItemLineB (str "\n_(" ++ natStr n ++ str " more failures not shown)_\n") =
      false := by
  simp only [isItemLineB, List.append_assoc]
  rw [take3_app _ _ (by decide)]
  decide

theorem isItemLineB_testResultHeader (n : Nat) :
    isItemLineB (str "## Test Result: " ++ natStr n ++ str " failures\n") =
      false := by
  simp only [isItemLineB, List.append_assoc]
  rw [take3_app _ _ (by decide)]
  decide

theorem isItemLineB_warnMore (n : Nat) :
    isItemLineB (str "- _(" ++ natStr n ++ str " more warnings)_") = false := by
  simp only [isItemLineB, List.append_assoc]
  rw [take3_app _ _ (by decide)]
  decide

theorem isItemLineB_topWarn (n : Nat) :
    isItemLineB (str "### Top " ++ natStr n ++ str " Warnings\n") = false := by
  simp only [isItemLineB, List.append_assoc]
  rw [take3_app _ _ (by decide)]
  decide

theorem compileCfg_item_count (d : CompilerDiagnostic) :
    (compileCfg.mkItem d).countP isItemLineB = 1 := by
  show ([errItemLine d]).countP isItemLineB = 1
  simp [List.countP_cons, isItemLineB_errItem]

theorem testCfg_item_count (f : TestFailure) :
    (testCfg.mkItem f).countP isItemLineB = 1 := by
  show (failItemLine f ::
      (if f.message.isEmpty then [] else [str "  > " ++ renderMsg f])).countP
        isItemLineB = 1
  cases hm : f.message.isEmpty with
  | true => simp [hm, List.countP_cons, isItemLineB_failItem]
  | false => simp [hm, List.countP_cons, isItemLineB_failItem, isItemLineB_msgLine]

theorem compileRender_count (maxI total : Nat)
    (gs : List (Str × List CompilerDiagnostic)) :
    (renderGroupsCapped compileCfg maxI total gs 0).1.countP isItemLineB =
        (renderGroupsCapped compileCfg maxI total gs 0).2.1 ∧
      (renderGroupsCapped compileCfg maxI total gs 0).2.1 ≤ maxI := by
  have h := renderGroupsCapped_count compileCfg maxI total isItemLineB
    compileCfg_item_count
    (fun k g => isItemLineB_errFileHeader k g.length)
    isItemLineB_errTruncNote
    (by decide)
    gs 0 (Nat.zero_le _)
  exact ⟨by omega, h.2.2⟩

theorem testRender_count (maxI total : Nat)
    (gs : List (Str × List TestFailure)) :
    (renderGroupsCapped testCfg maxI total gs 0).1.countP isItemLineB =
        (renderGroupsCapped testCfg maxI total gs 0).2.1 ∧
      (renderGroupsCapped testCfg maxI total gs 0).2.1 ≤ maxI := by
  have h := renderGroupsCapped_count testCfg maxI total isItemLineB
    testCfg_item_count
    (fun k g => isItemLineB_testHeader k g.length)
    isItemLineB_testNote
    (by decide)
    gs 0 (Nat.zero_le _)
  exact ⟨by omega, h.2.2⟩

theorem compileErrPart_count (errors : List CompilerDiagnostic) (maxI : Nat) :
    (compileErrPart errors maxI).countP isItemLineB ≤ maxI := by
  rw [compileErrPart]
  split
  · simp
  · rw [List.countP_cons]
    have h := compileRender_count maxI errors.length
      (stableSort (fun a b => decide (b.2.length ≤ a.2.length))
        (groupByKey (fun d => d.file_path) errors))
    have hsec : isItemLineB (str "### Errors by File\n") = false := by decide
    simp only [hsec, Bool.false_eq_true, if_false]
    omega

theorem compileWarnPart_count (warnings : List CompilerDiagnostic) :
    (compileWarnPart warnings).countP isItemLineB = 0 := by
  rw [List.countP_eq_zero]
  intro l hl
  rw [compileWarnPart] at hl
  split at hl
  · simp at hl
  · rcases List.mem_append.mp hl with h | h
    · rcases List.mem_cons.mp h with h2 | h2
      · subst h2
        rw [isItemLineB_topWarn]
        simp
      · rcases List.mem_append.mp h2 with h3 | h3
        · obtain ⟨d, _, hd⟩ := List.mem_map.mp h3
          subst hd
          rw [isItemLineB_warnLine]
          simp
        · split at h3
          · simp only [List.mem_singleton] at h3
            subst h3
            rw [isItemLineB_warnMore]
            simp
          · simp at h3
    · simp only [List.mem_singleton] at h
      subst h
      decide

theorem cbPart_count (a : Nat) :
    (if (format_circuit_breaker a).isEmpty then ([] : List Str)
      else [format_circuit_breaker a]).countP isItemLineB = 0 := by
  split
  · rfl
  · simp [List.countP_cons, isItemLineB_fcb]

theorem compile_lines_count (diags : List CompilerDiagnostic) (maxI : Nat)
    (scheme : Option Str) (a : Nat) :
    (format_compile_markdown_lines diags maxI scheme a).countP isItemLineB ≤
      maxI := by
  simp only [format_compile_markdown_lines]
  split
  · have hclean : isItemLineB cleanBuildLine = false := by decide
    simp [List.countP_cons, isItemLineB_compileHeader, hclean]
  · rw [List.countP_cons, List.countP_append, List.countP_append]
    have he := compileErrPart_count
      (diags.filter (fun d => decide (d.severity = Sev.error))) maxI
    have hw := compileWarnPart_count
      (diags.filter (fun d => decide (d.severity = Sev.warning)))
    have hcb := cbPart_count a
    rw [hw, hcb, isItemLineB_compileHeader]
    simp only [Bool.false_eq_true, if_false]
    omega

theorem test_lines_count (failures : List TestFailure) (maxI a : Nat) :
    (format_test_markdown_lines failures maxI a).countP isItemLineB ≤ maxI := by
  simp only [format_test_markdown_lines]
  split
  · have h : isItemLineB (str "## Test Result: ✅ All tests passed\n") = false := by
      decide
    simp [List.countP_cons, h]
  · rw [List.countP_cons, List.countP_append]
    have hb := testRender_count maxI failures.length (testGroupsOf failures)
    have hcb := cbPart_count a
    rw [hcb, isItemLineB_testResultHeader]
    simp only [Bool.false_eq_true, if_false]
    have hb1 := hb.1
    have hb2 := hb.2
    simp only [testGroupsOf] at hb1 hb2
    omega

theorem compileRender_noted (diags : List CompilerDiagnostic) (maxI : Nat) :
    (compileRenderOf diags maxI).2.2 = true ↔
      (compileGroupsOf diags ≠ [] ∧
        maxI ≤ ((compileGroupsOf diags).dropLast.map (fun g => g.2.length)).sum) := by
  have h := renderGroupsCapped_noted compileCfg maxI (errorsOf diags).length
    (fun g => stableSort_length _ g) (compileGroupsOf diags) 0 (Nat.zero_le _)
  rw [Nat.zero_add] at h
  exact h

theorem testRender_noted (failures : List TestFailure) (maxI : Nat) :
    (testRenderOf failures maxI).2.2 = true ↔
      (testGroupsOf failures ≠ [] ∧
        maxI ≤ ((testGroupsOf failures).dropLast.map (fun g => g.2.length)).sum) := by
  have h := renderGroupsCapped_noted testCfg maxI failures.length
    (fun g => rfl) (testGroupsOf failures) 0 (Nat.zero_le _)
  rw [Nat.zero_add] at h
  exact h

theorem compile_note_mem (diags : List CompilerDiagnostic) (maxI : Nat)
    (scheme : Option Str) (a : Nat)
    (hne : (errorsOf diags).isEmpty = false)
    (hfl : (compileRenderOf diags maxI).2.2 = true) :
    errTruncNote ((errorsOf diags).length - (compileRenderOf diags maxI).2.1) ∈
      format_compile_markdown_lines diags maxI scheme a := by
  have hm := renderGroupsCapped_note_mem compileCfg maxI (errorsOf diags).length
    (compileGroupsOf diags) 0 hfl
  have hne' : (diags.filter (fun d => decide (d.severity = Sev.error))).isEmpty =
      false := hne
  simp only [format_compile_markdown_lines]
  rw [if_neg (by simp [hne'])]
  refine List.mem_cons_of_mem _
    (List.mem_append_left _ (List.mem_append_left _ ?_))
  rw [compileErrPart, if_neg (by simp [hne'])]
  exact List.mem_cons_of_mem _ hm

theorem test_note_mem (failures : List TestFailure) (maxI a : Nat)
    (hne : failures.isEmpty = false)
    (hfl : (testRenderOf failures maxI).2.2 = true) :
    str "\n_(" ++ natStr (failures.length - (testRenderOf failures maxI).2.1) ++
        str " more failures not shown)_\n" ∈
      format_test_markdown_lines failures maxI a := by
  have hm := renderGroupsCapped_note_mem testCfg maxI failures.length
    (testGroupsOf failures) 0 hfl
  simp only [format_test_markdown_lines]
  rw [if_neg (by simp [hne])]
  exact List.mem_cons_of_mem _ (List.mem_append_left _ hm)

/-- C4 (amended).  No test-failure message produced by the result walker
exceeds 200 characters, stored or rendered; each Markdown report renders at
most max_issues item lines; the shown counter of the capped group rendering
equals the number of rendered item lines; and the remaining-count note —
whose count equals total minus shown — is emitted if and only if the groups
are nonempty and the cap does not exceed the combined size of all groups but
the last, in which case the note line appears in the report; overflow
confined entirely to the final group is truncated silently, with no note. -/
theorem truncation_bounds (diags : List CompilerDiagnostic)
    (failures : List TestFailure) (node : J) (root : Option Str)
    (maxI a : Nat) (scheme : Option Str) :
    (∀ f ∈ _walk_test_results node root,
      f.message.length ≤ 200 ∧ (renderMsg f).length ≤ 200) ∧
    (format_compile_markdown_lines diags maxI scheme a).countP isItemLineB ≤ maxI ∧
    (format_test_markdown_lines failures maxI a).countP isItemLineB ≤ maxI ∧
    ((compileRenderOf diags maxI).2.2 = true ↔
      (compileGroupsOf diags ≠ [] ∧
        maxI ≤ ((compileGroupsOf diags).dropLast.map (fun g => g.2.length)).sum)) ∧
    ((errorsOf diags).isEmpty = false → (compileRenderOf diags maxI).2.2 = true →
      errTruncNote ((errorsOf diags).length - (compileRenderOf diags maxI).2.1) ∈
        format_compile_markdown_lines diags maxI scheme a) ∧
    (compileRenderOf diags maxI).1.countP isItemLineB =
      (compileRenderOf diags maxI).2.1 ∧
    ((testRenderOf failures maxI).2.2 = true ↔
      (testGroupsOf failures ≠ [] ∧
        maxI ≤ ((testGroupsOf failures).dropLast.map (fun g => g.2.length)).sum)) ∧
    (failures.isEmpty = false → (testRenderOf failures maxI).2.2 = true →
      str "\n_(" ++ natStr (failures.length - (testRenderOf failures maxI).2.1) ++
          str " more failures not shown)_\n" ∈
        format_test_markdown_lines failures maxI a) ∧
    (testRenderOf failures maxI).1.countP isItemLineB =
      (testRenderOf failures maxI).2.1 := by
  refine ⟨?_, compile_lines_count diags maxI scheme a,
    test_lines_count failures maxI a, compileRender_noted diags maxI,
    compile_note_mem diags maxI scheme a,
    (compileRender_count maxI (errorsOf diags).length (compileGroupsOf diags)).1,
    testRender_noted failures maxI, test_note_mem failures maxI a,
    (testRender_count maxI failures.length (testGroupsOf failures)).1⟩
  intro f hf
  have hb := (walk_msg_bound (sizeOf node)).1 node root le_rfl f hf
  exact ⟨hb, le_trans (renderMsg_length_le f) hb⟩

/-- A minimal failing-test node for exercising the result walker. -/
def c4node : J :=
  J.obj [(str "_type", J.obj [(str "_name", J.s (str "ActionTestMetadata"))]),
         (str "testStatus", J.obj [(str "_value", J.s (str "Failure"))]),
         (str "identifier", J.obj [(str "_value", J.s (str "CA/t1()"))])]

/-- The failure extracted from the minimal failing-test node. -/
def c4fail0 : TestFailure :=
  { test_class := str "CA", test_method := str "t1()", message := [],
    file_path := [], line := 0, duration := none }

/-- An error diagnostic in file A for the truncation witness. -/
def c4diagA : CompilerDiagnostic :=
  { file_path := str "A.swift", line := 1, column := 1, severity := Sev.error,
    message := str "a" }

/-- An error diagnostic in file B for the truncation witness. -/
def c4diagB : CompilerDiagnostic :=
  { file_path := str "B.swift", line := 2, column := 1, severity := Sev.error,
    message := str "b" }

/-- A test failure in class CA for the truncation witness. -/
def c4failA : TestFailure :=
  { test_class := str "CA", test_method := str "t1", message := str "boom",
    file_path := str "A.swift", line := 1, duration := none }

/-- A test failure in class CB for the truncation witness. -/
def c4failB : TestFailure :=
  { test_class := str "CB", test_method := str "t2", message := [],
    file_path := [], line := 0, duration := none }

/-- Witness for C4 at concrete inputs: a walked failure message within the
bound, and both truncation notes present at cap 1 with two one-element
groups each. -/
theorem truncation_bounds_witness :
    (c4fail0.message.length ≤ 200 ∧ (renderMsg c4fail0).length ≤ 200) ∧
    errTruncNote ((errorsOf [c4diagA, c4diagB]).length -
        (compileRenderOf [c4diagA, c4diagB] 1).2.1) ∈
      format_compile_markdown_lines [c4diagA, c4diagB] 1 none 0 ∧
    str "\n_(" ++ natStr (([c4failA, c4failB].length) -
          (testRenderOf [c4failA, c4failB] 1).2.1) ++
        str " more failures not shown)_\n" ∈
      format_test_markdown_lines [c4failA, c4failB] 1 0 :=
  ⟨(truncation_bounds [c4diagA, c4diagB] [c4failA, c4failB] c4node none
      1 0 none).1 c4fail0 (by
        rw [c4node, _walk_test_results]
        simp only [walkFields, walkVal, walkValuesKey, walkArrItems, walkItems,
          walkObjOnly, _walk_test_results]
        decide),
   (truncation_bounds [c4diagA, c4diagB] [c4failA, c4failB] c4node none
      1 0 none).2.2.2.2.1 (by decide) (by decide),
   (truncation_bounds [c4diagA, c4diagB] [c4failA, c4failB] c4node none
      1 0 none).2.2.2.2.2.2.2.1 (by decide) (by decide)⟩

/-- Twenty-one identical-file error diagnostics, one over the default cap. -/
def c4big : List CompilerDiagnostic :=
  (List.range 21).map (fun i =>
    { file_path := str "A.swift", line := i, column := 0, severity := Sev.error,
      message := str "m" })

/-- Counterexample for C4: with 21 errors in a single file at cap 20 the
rendering shows only 20 item lines — the list is truncated — yet no
remaining-count note is present: every truncation note starts with the three
characters newline, underscore, open parenthesis, and no rendered line
does. -/
theorem format_compile_truncated_without_note :
    20 < (errorsOf c4big).length ∧
    (format_compile_markdown_lines c4big 20 none 0).countP isItemLineB = 20 ∧
    ∀ l ∈ format_compile_markdown_lines c4big 20 none 0,
      l.take 3 ≠ str "\n_(" := by decide

/- =====================================================================
Claim C9: JSON payload completeness
===================================================================== -/

/-- C9.  The structured JSON payloads are never truncated: the compile
payload lists every deduplicated diagnostic of every severity (notes
included) in order, the test payload every failure, and the lint payload
every violation — none of the three serializers takes a cap argument, their
entry lists are exact images of their inputs with equal lengths, and every
input element appears in the payload. -/
theorem json_payloads_complete (raw : Str) (root : Option Str)
    (failures : List TestFailure) (viols : List LintViolation)
    (blast : Option Str) (a : Nat) :
    (format_compile_json (parse_compile_output raw root) a).diagnostics =
        (parse_compile_output raw root).map diagJson ∧
    (format_compile_json (parse_compile_output raw root) a).diagnostics.length =
        (parse_compile_output raw root).length ∧
    (format_test_json failures a).failures = failures.map testFailureJson ∧
    (format_test_json failures a).failures.length = failures.length ∧
    (format_lint_json viols blast).violations = viols.map lintViolationJson ∧
    (format_lint_json viols blast).violations.length = viols.length ∧
    (∀ d ∈ parse_compile_output raw root,
      diagJson d ∈ (format_compile_json (parse_compile_output raw root) a).diagnostics) ∧
    (∀ f ∈ failures, testFailureJson f ∈ (format_test_json failures a).failures) ∧
    (∀ v ∈ viols, lintViolationJson v ∈ (format_lint_json viols blast).violations) := by
  refine ⟨rfl, by simp [format_compile_json], rfl, by simp [format_test_json],
    rfl, by simp [format_lint_json], ?_, ?_, ?_⟩
  · intro d hd
    exact List.mem_map_of_mem _ hd
  · intro f hf
    exact List.mem_map_of_mem _ hf
  · intro v hv
    exact List.mem_map_of_mem _ hv

/-- The note diagnostic parsed from the C9 witness input. -/
def c9diag : CompilerDiagnostic :=
  { file_path := str "A.swift", line := 1, column := 1, severity := Sev.note,
    message := str "n" }

/-- A concrete test failure for the C9 witness. -/
def c9fail : TestFailure :=
  { test_class := str "C", test_method := str "t", message := str "m",
    file_path := [], line := 0, duration := none }

/-- A concrete lint violation for the C9 witness. -/
def c9viol : LintViolation :=
  { file_path := str "F.swift", line_num := 1, pattern_name := str "p",
    severity := str "error", message := str "m", diff_line := str "+x" }

/-- Witness for C9 at concrete inputs: a parsed note diagnostic, a failure
and a violation each appear in their JSON payloads. -/
theorem json_payloads_complete_witness :
    diagJson c9diag ∈
      (format_compile_json
        (parse_compile_output (str "A.swift:1:1: note: n") none) 0).diagnostics ∧
    testFailureJson c9fail ∈ (format_test_json [c9fail] 0).failures ∧
    lintViolationJson c9viol ∈
      (format_lint_json [c9viol] none).violations :=
  ⟨(json_payloads_complete (str "A.swift:1:1: note: n") none [c9fail] [c9viol]
      none 0).2.2.2.2.2.2.1 c9diag (by decide),
   (json_payloads_complete (str "A.swift:1:1: note: n") none [c9fail] [c9viol]
      none 0).2.2.2.2.2.2.2.1 c9fail (by decide),
   (json_payloads_complete (str "A.swift:1:1: note: n") none [c9fail] [c9viol]
      none 0).2.2.2.2.2.2.2.2 c9viol (by decide)⟩
